import Mathlib

/-!
Verification of `scripts/enhance-dashboards.py` (happy-bday-app repository).

The script batch-edits Grafana dashboard JSON files: it overwrites the
`templating`, `links` and `annotations` sections of each configured dashboard
and rewrites the Prometheus query expression of every panel target
(injecting `namespace`/`instance` label filters and replacing the fixed
`[5m]` window with `[$interval]`).

The embedding below models:
  * Python strings as `List Char`, with Python's `in` (substring test),
    `str.replace` (all occurrences, or first occurrence for count `1`),
    `str.split`, and `str.strip` re-implemented structurally;
  * JSON documents as an inductive `Json` type with insertion-ordered
    objects (`objGet` / `objSet` mirror Python `dict` lookup/assignment);
  * the script's functions (`get_common_variables`, `create_annotations`,
    `create_links`, `update_panel_queries` decomposed per target/panel,
    `enhance_dashboard`, and the `main` loop over `DASHBOARD_CONFIGS`),
    with Python runtime type errors modelled as `Except Unit`;
  * the filesystem as a map from file names to parsed documents; the
    `main` loop reads each configured file, enhances it and writes it back,
    skipping missing files and files whose enhancement raises.
-/

/-- Convert a Lean string literal to the `List Char` representation used
throughout this development. -/
def S (s : String) : List Char := s.data

/-- The `\x7b` character (opening curly brace), used in query strings. -/
def braceC : Char := '\x7b'

/-- The `\x7d` character (closing curly brace), used in query strings. -/
def rbraceC : Char := '\x7d'

/-! ### Python string primitives on `List Char` -/

/-- Predicate `pre_of p l` is true when `p` is a prefix of `l`. -/
def pre_of : List Char → List Char → Bool
  | [], _ => true
  | _ :: _, [] => false
  | a :: as, b :: bs => a == b && pre_of as bs

/-- Predicate `suf_of p l` is true when `p` is a suffix of `l`. -/
def suf_of (p l : List Char) : Bool := pre_of p.reverse l.reverse

/-- Predicate `inf_of p l` is true when `p` occurs as a contiguous substring of `l`;
this is Python's `p in l` on strings. -/
def inf_of (p : List Char) : List Char → Bool
  | [] => pre_of p []
  | c :: cs => pre_of p (c :: cs) || inf_of p cs

@[simp] theorem pre_of_nil_left (l : List Char) : pre_of [] l = true := by
  cases l <;> rfl

@[simp] theorem pre_of_nil_right (a : Char) (as : List Char) :
    pre_of (a :: as) [] = false := rfl

theorem pre_of_cons (a b : Char) (as bs : List Char) :
    pre_of (a :: as) (b :: bs) = (a == b && pre_of as bs) := rfl

theorem pre_of_iff (p l : List Char) :
    pre_of p l = true ↔ ∃ v, l = p ++ v := by
  induction p generalizing l with
  | nil => simp
  | cons a as ih =>
    cases l with
    | nil =>
      simp only [pre_of_nil_right, Bool.false_eq_true, false_iff]
      rintro ⟨v, hv⟩
      exact absurd hv (by simp)
    | cons b bs =>
      rw [pre_of_cons, Bool.and_eq_true, beq_iff_eq, ih]
      constructor
      · rintro ⟨rfl, v, rfl⟩
        exact ⟨v, rfl⟩
      · rintro ⟨v, hv⟩
        simp only [List.cons_append, List.cons.injEq] at hv
        exact ⟨hv.1.symm, v, hv.2⟩

theorem pre_of_refl (l : List Char) : pre_of l l = true :=
  (pre_of_iff l l).mpr ⟨[], by simp⟩

theorem pre_of_append (p v : List Char) : pre_of p (p ++ v) = true :=
  (pre_of_iff p (p ++ v)).mpr ⟨v, rfl⟩

theorem pre_of_weaken {p a : List Char} (b : List Char)
    (h : pre_of p a = true) : pre_of p (a ++ b) = true := by
  obtain ⟨v, rfl⟩ := (pre_of_iff p a).mp h
  exact (pre_of_iff _ _).mpr ⟨v ++ b, by simp⟩

theorem pre_of_drop {p l : List Char} (h : pre_of p l = true) :
    l = p ++ l.drop p.length := by
  obtain ⟨v, rfl⟩ := (pre_of_iff p l).mp h
  simp

theorem suf_of_iff (p l : List Char) :
    suf_of p l = true ↔ ∃ u, l = u ++ p := by
  rw [suf_of, pre_of_iff]
  constructor
  · rintro ⟨v, hv⟩
    refine ⟨v.reverse, ?_⟩
    have := congrArg List.reverse hv
    simpa using this
  · rintro ⟨u, rfl⟩
    exact ⟨u.reverse, by simp⟩

theorem suf_of_refl (l : List Char) : suf_of l l = true :=
  (suf_of_iff l l).mpr ⟨[], rfl⟩

theorem suf_of_cons {p l : List Char} (c : Char) (h : suf_of p l = true) :
    suf_of p (c :: l) = true := by
  obtain ⟨u, rfl⟩ := (suf_of_iff p l).mp h
  exact (suf_of_iff _ _).mpr ⟨c :: u, rfl⟩

theorem inf_of_nil (p : List Char) : inf_of p [] = pre_of p [] := rfl

theorem inf_of_cons (p : List Char) (c : Char) (cs : List Char) :
    inf_of p (c :: cs) = (pre_of p (c :: cs) || inf_of p cs) := rfl

theorem inf_of_iff (p l : List Char) :
    inf_of p l = true ↔ ∃ u v, l = u ++ p ++ v := by
  induction l with
  | nil =>
    cases p with
    | nil => simp [inf_of]
    | cons a as =>
      simp only [inf_of_nil, pre_of_nil_right, Bool.false_eq_true, false_iff]
      rintro ⟨u, v, hv⟩
      exact absurd hv (by simp)
  | cons c cs ih =>
    rw [inf_of_cons, Bool.or_eq_true, ih, pre_of_iff]
    constructor
    · rintro (⟨v, hv⟩ | ⟨u, v, hv⟩)
      · exact ⟨[], v, by simpa using hv⟩
      · exact ⟨c :: u, v, by simp [hv]⟩
    · rintro ⟨u, v, hv⟩
      cases u with
      | nil => exact Or.inl ⟨v, by simpa using hv⟩
      | cons b bs =>
        simp only [List.cons_append, List.append_assoc, List.cons.injEq] at hv
        exact Or.inr ⟨bs, v, by simp [hv.2]⟩

theorem pre_of_inf {p l : List Char} (h : pre_of p l = true) :
    inf_of p l = true := by
  obtain ⟨v, rfl⟩ := (pre_of_iff p l).mp h
  exact (inf_of_iff _ _).mpr ⟨[], v, by simp⟩

theorem suf_of_inf {p l : List Char} (h : suf_of p l = true) :
    inf_of p l = true := by
  obtain ⟨u, rfl⟩ := (suf_of_iff p l).mp h
  exact (inf_of_iff _ _).mpr ⟨u, [], by simp⟩

theorem inf_of_refl (l : List Char) : inf_of l l = true :=
  pre_of_inf (pre_of_refl l)

theorem inf_of_append_right {p b : List Char} (a : List Char)
    (h : inf_of p b = true) : inf_of p (a ++ b) = true := by
  obtain ⟨u, v, rfl⟩ := (inf_of_iff p b).mp h
  exact (inf_of_iff _ _).mpr ⟨a ++ u, v, by simp⟩

theorem inf_of_append_left {p a : List Char} (b : List Char)
    (h : inf_of p a = true) : inf_of p (a ++ b) = true := by
  obtain ⟨u, v, rfl⟩ := (inf_of_iff p a).mp h
  exact (inf_of_iff _ _).mpr ⟨u, v ++ b, by simp⟩

theorem inf_of_cons_of_inf {p l : List Char} (c : Char)
    (h : inf_of p l = true) : inf_of p (c :: l) = true := by
  rw [inf_of_cons, h, Bool.or_true]

theorem inf_of_trans {a b c : List Char} (h1 : inf_of a b = true)
    (h2 : inf_of b c = true) : inf_of a c = true := by
  obtain ⟨u, v, rfl⟩ := (inf_of_iff a b).mp h1
  obtain ⟨x, y, rfl⟩ := (inf_of_iff _ c).mp h2
  exact (inf_of_iff _ _).mpr ⟨x ++ u, v ++ y, by simp⟩

/-- Splitting a prefix occurrence across an append: the occurrence is either
contained in the left part, or the left part is a prefix of the pattern. -/
theorem pre_of_append_cases {p a b : List Char}
    (h : pre_of p (a ++ b) = true) :
    pre_of p a = true ∨ ∃ p2, p = a ++ p2 ∧ pre_of p2 b = true := by
  induction a generalizing p with
  | nil => exact Or.inr ⟨p, by simpa using h⟩
  | cons c a' ih =>
    cases p with
    | nil => exact Or.inl (by simp)
    | cons d p' =>
      rw [List.cons_append, pre_of_cons, Bool.and_eq_true, beq_iff_eq] at h
      obtain ⟨rfl, h2⟩ := h
      rcases ih h2 with h3 | ⟨p2, rfl, h4⟩
      · exact Or.inl (by rw [pre_of_cons, h3]; simp)
      · exact Or.inr ⟨p2, rfl, h4⟩

/-- Decomposing a substring occurrence across an append: the occurrence lies
in the left part, in the right part, or straddles the boundary with a
nonempty piece `p1` ending the left part. -/
theorem inf_of_append_cases {p a b : List Char}
    (h : inf_of p (a ++ b) = true) :
    inf_of p a = true ∨ inf_of p b = true ∨
      ∃ p1 p2, p = p1 ++ p2 ∧ p1 ≠ [] ∧ p2 ≠ [] ∧
        suf_of p1 a = true ∧ pre_of p2 b = true := by
  induction a with
  | nil => exact Or.inr (Or.inl (by simpa using h))
  | cons c a' ih =>
    rw [List.cons_append, inf_of_cons, Bool.or_eq_true] at h
    rcases h with h | h
    · rcases pre_of_append_cases (p := p) (a := c :: a') (b := b) h with
        h1 | ⟨p2, rfl, h2⟩
      · exact Or.inl (pre_of_inf h1)
      · cases p2 with
        | nil => exact Or.inl (by simpa using inf_of_refl (c :: a'))
        | cons e p2' =>
          exact Or.inr (Or.inr ⟨c :: a', e :: p2', rfl, by simp, by simp,
            suf_of_refl _, h2⟩)
    · rcases ih h with h1 | h1 | ⟨p1, p2, rfl, hp1, hp2, hs, hp⟩
      · exact Or.inl (inf_of_cons_of_inf c h1)
      · exact Or.inr (Or.inl h1)
      · exact Or.inr (Or.inr ⟨p1, p2, rfl, hp1, hp2, suf_of_cons c hs, hp⟩)

/-! ### Python `str.replace`, `str.split`, `str.strip` -/

/-- Fueled worker for `pyReplace`: scans left to right, replacing each
non-overlapping occurrence of `pat`.  The fuel only serves termination;
`fuel = l.length` always suffices (each step consumes at least one
character when `pat` is nonempty). -/
def replA : Nat → List Char → List Char → List Char → List Char
  | _, [], _, _ => []
  | 0, l, _, _ => l
  | f + 1, c :: cs, pat, rep =>
    if pre_of pat (c :: cs) then
      rep ++ replA f (List.drop pat.length (c :: cs)) pat rep
    else
      c :: replA f cs pat rep

/-- Python `l.replace(pat, rep)`: replaces every occurrence, scanning left to
right.  For the empty pattern Python inserts `rep` before every character and
once at the end (`"ab".replace("", "X") == "XaXbX"`). -/
def pyReplace (l pat rep : List Char) : List Char :=
  if pat = [] then l.foldr (fun c acc => rep ++ c :: acc) rep
  else replA l.length l pat rep

/-- Python `l.replace(pat, rep, 1)`: replaces only the first occurrence.
For the empty pattern Python prepends `rep`. -/
def repl1 : List Char → List Char → List Char → List Char
  | [], _, _ => []
  | c :: cs, pat, rep =>
    if pre_of pat (c :: cs) then rep ++ List.drop pat.length (c :: cs)
    else c :: repl1 cs pat rep

/-- Python `l.replace(pat, rep, 1)` including the empty-pattern case. -/
def pyReplace1 (l pat rep : List Char) : List Char :=
  if pat = [] then rep ++ l else repl1 l pat rep

/-- Fueled worker for `pySplit` (Python `l.split(sep)` for nonempty `sep`). -/
def splitA : Nat → List Char → List Char → List (List Char)
  | _, [], _ => [[]]
  | 0, l, _ => [l]
  | f + 1, c :: cs, sep =>
    if pre_of sep (c :: cs) then
      [] :: splitA f (List.drop sep.length (c :: cs)) sep
    else
      match splitA f cs sep with
      | [] => [[c]]
      | h :: t => (c :: h) :: t

/-- Python `l.split(sep)`; only used with the nonempty separators
`"["` and `"("` (Python raises on an empty separator). -/
def pySplit (l sep : List Char) : List (List Char) := splitA l.length l sep

/-- Python whitespace as stripped by `str.strip()`. -/
def isPySpace (c : Char) : Bool :=
  c == ' ' || c == '\t' || c == '\n' || c == '\r' || c == '\x0b' || c == '\x0c'

/-- Python `l.strip()`: drop leading and trailing whitespace. -/
def pyStrip (l : List Char) : List Char :=
  ((l.dropWhile isPySpace).reverse.dropWhile isPySpace).reverse

/-- Last element of a list of strings, with a default (Python `xs[-1]`,
which the script only evaluates on nonempty results of `split`). -/
def lastD (xs : List (List Char)) (d : List Char) : List Char :=
  xs.getLast?.getD d

/-- Head of a list of strings, with a default (Python `xs[0]` under the
script's `len(xs) > 0` guard). -/
def headD (xs : List (List Char)) (d : List Char) : List Char :=
  xs.headD d

/-- Join a list of strings with a separator (Python `sep.join(xs)`). -/
def joinSep (sep : List Char) : List (List Char) → List Char
  | [] => []
  | [x] => x
  | x :: y :: xs => x ++ sep ++ joinSep sep (y :: xs)

/-! #### Unfolding equations that hide the fuel -/

theorem replA_fuel {pat rep : List Char} (hpat : pat ≠ []) :
    ∀ f1 f2 l, l.length ≤ f1 → l.length ≤ f2 →
      replA f1 l pat rep = replA f2 l pat rep := by
  have hlen : 0 < pat.length := List.length_pos.mpr hpat
  intro f1
  induction f1 with
  | zero =>
    intro f2 l h1 _
    have : l = [] := List.eq_nil_of_length_eq_zero (Nat.le_zero.mp h1)
    subst this
    cases f2 <;> rfl
  | succ f ih =>
    intro f2 l h1 h2
    cases l with
    | nil => cases f2 <;> rfl
    | cons c cs =>
      cases f2 with
      | zero => simp at h2
      | succ f2' =>
        simp only [replA]
        by_cases hp : pre_of pat (c :: cs) = true
        · rw [if_pos hp, if_pos hp]
          have hd : (List.drop pat.length (c :: cs)).length ≤ f := by
            simp only [List.length_drop, List.length_cons] at *
            omega
          have hd2 : (List.drop pat.length (c :: cs)).length ≤ f2' := by
            simp only [List.length_drop, List.length_cons] at *
            omega
          rw [ih f2' _ hd hd2]
        · rw [if_neg hp, if_neg hp]
          have hc : cs.length ≤ f := by
            simp only [List.length_cons] at h1
            omega
          have hc2 : cs.length ≤ f2' := by
            simp only [List.length_cons] at h2
            omega
          rw [ih f2' _ hc hc2]

theorem pyReplace_nil (pat rep : List Char) (hpat : pat ≠ []) :
    pyReplace [] pat rep = [] := by
  rw [pyReplace, if_neg hpat]
  rfl

theorem pyReplace_cons (c : Char) (cs pat rep : List Char) (hpat : pat ≠ []) :
    pyReplace (c :: cs) pat rep =
      if pre_of pat (c :: cs) then
        rep ++ pyReplace (List.drop pat.length (c :: cs)) pat rep
      else
        c :: pyReplace cs pat rep := by
  have hlen : 0 < pat.length := List.length_pos.mpr hpat
  rw [pyReplace, if_neg hpat]
  simp only [List.length_cons, replA]
  by_cases hp : pre_of pat (c :: cs) = true
  · rw [if_pos hp, if_pos hp, pyReplace, if_neg hpat]
    congr 1
    exact replA_fuel hpat _ _ _ (by simp; omega) le_rfl
  · rw [if_neg hp, if_neg hp, pyReplace, if_neg hpat]

theorem splitA_fuel {sep : List Char} (hsep : sep ≠ []) :
    ∀ f1 f2 l, l.length ≤ f1 → l.length ≤ f2 →
      splitA f1 l sep = splitA f2 l sep := by
  have hlen : 0 < sep.length := List.length_pos.mpr hsep
  intro f1
  induction f1 with
  | zero =>
    intro f2 l h1 _
    have : l = [] := List.eq_nil_of_length_eq_zero (Nat.le_zero.mp h1)
    subst this
    cases f2 <;> rfl
  | succ f ih =>
    intro f2 l h1 h2
    cases l with
    | nil => cases f2 <;> rfl
    | cons c cs =>
      cases f2 with
      | zero => simp at h2
      | succ f2' =>
        simp only [splitA]
        by_cases hp : pre_of sep (c :: cs) = true
        · rw [if_pos hp, if_pos hp]
          have hd : (List.drop sep.length (c :: cs)).length ≤ f := by
            simp only [List.length_drop, List.length_cons] at *
            omega
          have hd2 : (List.drop sep.length (c :: cs)).length ≤ f2' := by
            simp only [List.length_drop, List.length_cons] at *
            omega
          rw [ih f2' _ hd hd2]
        · rw [if_neg hp, if_neg hp]
          have hc : cs.length ≤ f := by
            simp only [List.length_cons] at h1
            omega
          have hc2 : cs.length ≤ f2' := by
            simp only [List.length_cons] at h2
            omega
          rw [ih f2' _ hc hc2]

theorem pySplit_nil (sep : List Char) : pySplit [] sep = [[]] := rfl

theorem pySplit_cons (c : Char) (cs sep : List Char) (hsep : sep ≠ []) :
    pySplit (c :: cs) sep =
      if pre_of sep (c :: cs) then
        [] :: pySplit (List.drop sep.length (c :: cs)) sep
      else
        match pySplit cs sep with
        | [] => [[c]]
        | h :: t => (c :: h) :: t := by
  have hlen : 0 < sep.length := List.length_pos.mpr hsep
  rw [pySplit]
  simp only [List.length_cons, splitA]
  by_cases hp : pre_of sep (c :: cs) = true
  · rw [if_pos hp, if_pos hp, pySplit]
    congr 1
    exact splitA_fuel hsep _ _ _ (by simp; omega) le_rfl
  · rw [if_neg hp, if_neg hp, pySplit]

theorem pySplit_ne_nil (l sep : List Char) : pySplit l sep ≠ [] := by
  rw [pySplit]
  generalize l.length = f
  induction f generalizing l with
  | zero => cases l <;> simp [splitA]
  | succ f ih =>
    cases l with
    | nil => simp [splitA]
    | cons c cs =>
      simp only [splitA]
      by_cases hp : pre_of sep (c :: cs) = true
      · rw [if_pos hp]; simp
      · rw [if_neg hp]
        cases h : splitA f cs sep <;> simp

/-! #### Basic lemmas about replace / split / strip -/

theorem inf_of_nil_pat (l : List Char) : inf_of [] l = true := by
  cases l <;> simp [inf_of]

theorem pyReplace_not_inf {pat rep l : List Char}
    (h : inf_of pat l = false) : pyReplace l pat rep = l := by
  have hpat : pat ≠ [] := by
    rintro rfl
    rw [inf_of_nil_pat] at h
    cases h
  suffices H : ∀ n l, l.length ≤ n → inf_of pat l = false →
      pyReplace l pat rep = l from H l.length l le_rfl h
  intro n
  induction n with
  | zero =>
    intro l hl _
    have : l = [] := List.eq_nil_of_length_eq_zero (Nat.le_zero.mp hl)
    subst this
    exact pyReplace_nil _ _ hpat
  | succ n ih =>
    intro l hl hinf
    cases l with
    | nil => exact pyReplace_nil _ _ hpat
    | cons c cs =>
      rw [pyReplace_cons _ _ _ _ hpat]
      rw [inf_of_cons, Bool.or_eq_false_iff] at hinf
      rw [if_neg (by simp [hinf.1])]
      have hcl : cs.length ≤ n := by
        simp only [List.length_cons] at hl
        omega
      rw [ih cs hcl hinf.2]

theorem pyReplace_inf_rep {pat rep l : List Char} (hpat : pat ≠ [])
    (h : inf_of pat l = true) :
    inf_of rep (pyReplace l pat rep) = true := by
  suffices H : ∀ n l, l.length ≤ n → inf_of pat l = true →
      inf_of rep (pyReplace l pat rep) = true from H l.length l le_rfl h
  intro n
  induction n with
  | zero =>
    intro l hl hinf
    have : l = [] := List.eq_nil_of_length_eq_zero (Nat.le_zero.mp hl)
    subst this
    cases pat with
    | nil => exact absurd rfl hpat
    | cons a as => simp [inf_of] at hinf
  | succ n ih =>
    intro l hl hinf
    cases l with
    | nil =>
      cases pat with
      | nil => exact absurd rfl hpat
      | cons a as => simp [inf_of] at hinf
    | cons c cs =>
      rw [pyReplace_cons _ _ _ _ hpat]
      by_cases hp : pre_of pat (c :: cs) = true
      · rw [if_pos hp]
        exact inf_of_append_left _ (inf_of_refl rep)
      · rw [if_neg hp]
        rw [inf_of_cons, Bool.or_eq_true] at hinf
        have hcl : cs.length ≤ n := by
          simp only [List.length_cons] at hl
          omega
        rcases hinf with hinf | hinf
        · exact absurd hinf hp
        · exact inf_of_cons_of_inf c (ih cs hcl hinf)

theorem pyReplace_eq_join {pat rep : List Char} (hpat : pat ≠ []) (l : List Char) :
    pyReplace l pat rep = joinSep rep (pySplit l pat) := by
  suffices H : ∀ n l, l.length ≤ n →
      pyReplace l pat rep = joinSep rep (pySplit l pat) from H l.length l le_rfl
  intro n
  induction n with
  | zero =>
    intro l hl
    have : l = [] := List.eq_nil_of_length_eq_zero (Nat.le_zero.mp hl)
    subst this
    rw [pyReplace_nil _ _ hpat, pySplit_nil]
    rfl
  | succ n ih =>
    intro l hl
    cases l with
    | nil =>
      rw [pyReplace_nil _ _ hpat, pySplit_nil]
      rfl
    | cons c cs =>
      rw [pyReplace_cons _ _ _ _ hpat, pySplit_cons _ _ _ hpat]
      by_cases hp : pre_of pat (c :: cs) = true
      · rw [if_pos hp, if_pos hp]
        obtain ⟨h1, t1, heq⟩ : ∃ h t,
            pySplit (List.drop pat.length (c :: cs)) pat = h :: t := by
          cases hq : pySplit (List.drop pat.length (c :: cs)) pat with
          | nil => exact absurd hq (pySplit_ne_nil _ _)
          | cons h t => exact ⟨h, t, rfl⟩
        rw [heq]
        have hdl : (List.drop pat.length (c :: cs)).length ≤ n := by
          have : 0 < pat.length := List.length_pos.mpr hpat
          simp only [List.length_drop, List.length_cons]
          simp only [List.length_cons] at hl
          omega
        rw [ih _ hdl, heq]
        simp [joinSep]
      · rw [if_neg hp, if_neg hp]
        obtain ⟨h1, t1, heq⟩ : ∃ h t, pySplit cs pat = h :: t := by
          cases hq : pySplit cs pat with
          | nil => exact absurd hq (pySplit_ne_nil _ _)
          | cons h t => exact ⟨h, t, rfl⟩
        have hcl : cs.length ≤ n := by
          simp only [List.length_cons] at hl
          omega
        rw [heq, ih _ hcl, heq]
        cases t1 with
        | nil => simp [joinSep]
        | cons y t' => simp [joinSep]

theorem pyReplace1_self (l p : List Char) : pyReplace1 l p p = l := by
  rw [pyReplace1]
  by_cases hp : p = []
  · subst hp
    simp
  · rw [if_neg hp]
    induction l with
    | nil => rfl
    | cons c cs ih =>
      rw [repl1]
      by_cases h : pre_of p (c :: cs) = true
      · rw [if_pos h]
        exact (pre_of_drop h).symm
      · rw [if_neg h, ih]

theorem pyReplace1_not_inf {pat rep l : List Char}
    (h : inf_of pat l = false) : pyReplace1 l pat rep = l := by
  have hpat : pat ≠ [] := by
    rintro rfl
    rw [inf_of_nil_pat] at h
    cases h
  rw [pyReplace1, if_neg hpat]
  induction l with
  | nil => rfl
  | cons c cs ih =>
    rw [inf_of_cons, Bool.or_eq_false_iff] at h
    rw [repl1, if_neg (by simp [h.1]), ih h.2]

theorem pyReplace1_inf_rep {pat rep l : List Char} (hpat : pat ≠ [])
    (h : inf_of pat l = true) :
    inf_of rep (pyReplace1 l pat rep) = true := by
  rw [pyReplace1, if_neg hpat]
  induction l with
  | nil =>
    cases pat with
    | nil => exact absurd rfl hpat
    | cons a as => simp [inf_of] at h
  | cons c cs ih =>
    rw [repl1]
    by_cases hp : pre_of pat (c :: cs) = true
    · rw [if_pos hp]
      exact inf_of_append_left _ (inf_of_refl rep)
    · rw [if_neg hp]
      rw [inf_of_cons, Bool.or_eq_true] at h
      rcases h with h | h
      · exact absurd h hp
      · exact inf_of_cons_of_inf c (ih h)

/-- Characterization of single-character `replace(_, _, 1)` as insertion at
the position of the first occurrence of that character. -/
theorem pyReplace1_single (b : Char) (rep l : List Char) :
    pyReplace1 l [b] rep =
      if inf_of [b] l then
        l.takeWhile (fun a => a != b) ++ rep ++
          (l.dropWhile (fun a => a != b)).drop 1
      else l := by
  rw [pyReplace1, if_neg (by simp)]
  induction l with
  | nil => simp [inf_of, repl1]
  | cons c cs ih =>
    rw [repl1]
    by_cases hcb : b = c
    · subst hcb
      have hp : pre_of [b] (b :: cs) = true := by simp [pre_of_cons]
      rw [if_pos hp]
      have hinf : inf_of [b] (b :: cs) = true := pre_of_inf hp
      rw [if_pos hinf]
      simp [List.takeWhile_cons, List.dropWhile_cons]
    · have hp : ¬ (pre_of [b] (c :: cs) = true) := by
        simp [pre_of_cons]
        exact fun hbc => absurd hbc hcb
      rw [if_neg hp, ih]
      have hic : inf_of [b] (c :: cs) = inf_of [b] cs := by
        rw [inf_of_cons]
        cases hpc : pre_of [b] (c :: cs) with
        | false => simp
        | true => exact absurd hpc hp
      rw [hic]
      by_cases hinf : inf_of [b] cs = true
      · rw [if_pos hinf, if_pos hinf]
        have hne : (c != b) = true := by
          simp only [bne_iff_ne, ne_eq]
          exact fun h => hcb h.symm
        simp [List.takeWhile_cons, List.dropWhile_cons, hne]
      · rw [if_neg hinf, if_neg hinf]

/-! #### Occurrence preservation under `pyReplace`

For the concrete replacement `[5m] -> [$interval]` both pattern and
replacement start with the character `[`.  The following lemmas are stated
for any pattern `p0 :: pt` and replacement `p0 :: rt` with a shared first
character, and any probe string `q` that avoids `p0` and cannot straddle a
replacement boundary; they are later instantiated with decidable side
conditions on the concrete strings of the script. -/

/-- A probe string avoiding the shared head character starts the output of
`pyReplace` exactly when it starts the input. -/
theorem pre_of_pyReplace_iff (p0 : Char) (pt rt : List Char) (q : List Char)
    (hq : ∀ x ∈ q, x ≠ p0) (l : List Char) :
    pre_of q (pyReplace l (p0 :: pt) (p0 :: rt)) = true ↔
      pre_of q l = true := by
  induction q generalizing l with
  | nil => simp
  | cons d q' ih =>
    have hd : d ≠ p0 := hq d (by simp)
    have hq' : ∀ x ∈ q', x ≠ p0 := fun x hx => hq x (by simp [hx])
    cases l with
    | nil =>
      rw [pyReplace_nil _ _ (by simp)]
    | cons c cs =>
      rw [pyReplace_cons _ _ _ _ (by simp)]
      by_cases hp : pre_of (p0 :: pt) (c :: cs) = true
      · rw [if_pos hp]
        constructor
        · intro hpre
          rw [List.cons_append, pre_of_cons, Bool.and_eq_true, beq_iff_eq]
            at hpre
          exact absurd hpre.1 hd
        · intro hpre
          rw [pre_of_cons, Bool.and_eq_true, beq_iff_eq] at hpre
          rw [pre_of_cons, Bool.and_eq_true, beq_iff_eq] at hp
          exact absurd (hpre.1.trans hp.1.symm) hd
      · rw [if_neg hp]
        rw [pre_of_cons, pre_of_cons, Bool.and_eq_true, Bool.and_eq_true,
          ih hq']

/-- Occurrences of a probe string `q` in the input survive `pyReplace`
when `q` avoids the shared head character, does not occur in the pattern,
and no nonempty proper piece of `q` can end the pattern. -/
theorem inf_of_pyReplace_of_inf (p0 : Char) (pt rt q : List Char)
    (hq : ∀ x ∈ q, x ≠ p0)
    (hqp : inf_of q (p0 :: pt) = false)
    (hstr : ∀ k, k < q.length → 0 < k →
      suf_of (List.take k q) (p0 :: pt) = false) :
    ∀ l, inf_of q l = true →
      inf_of q (pyReplace l (p0 :: pt) (p0 :: rt)) = true := by
  intro l
  suffices H : ∀ n l, l.length ≤ n → inf_of q l = true →
      inf_of q (pyReplace l (p0 :: pt) (p0 :: rt)) = true from
    H l.length l le_rfl
  intro n
  induction n with
  | zero =>
    intro l hl hinf
    have : l = [] := List.eq_nil_of_length_eq_zero (Nat.le_zero.mp hl)
    subst this
    rw [pyReplace_nil _ _ (by simp)]
    rwa [inf_of_nil] at hinf ⊢
  | succ n ih =>
    intro l hl hinf
    cases l with
    | nil =>
      rw [pyReplace_nil _ _ (by simp)]
      rwa [inf_of_nil] at hinf ⊢
    | cons c cs =>
      rw [pyReplace_cons _ _ _ _ (by simp)]
      by_cases hp : pre_of (p0 :: pt) (c :: cs) = true
      · rw [if_pos hp]
        -- the input decomposes as pattern ++ rest
        have hdec := pre_of_drop hp
        have hdl : (List.drop (p0 :: pt).length (c :: cs)).length ≤ n := by
          simp only [List.length_drop, List.length_cons]
          simp only [List.length_cons] at hl
          omega
        rw [hdec] at hinf
        rcases inf_of_append_cases hinf with h1 | h1 |
          ⟨q1, q2, hq12, hq1, hq2, hsuf, hpre⟩
        · rw [h1] at hqp
          cases hqp
        · exact inf_of_append_right _ (ih _ hdl h1)
        · exfalso
          have hk1 : List.take q1.length q = q1 := by
            rw [hq12]
            exact List.take_left q1 q2
          have hklt : q1.length < q.length := by
            rw [hq12, List.length_append]
            have : 0 < q2.length := List.length_pos.mpr hq2
            omega
          have hk0 : 0 < q1.length := List.length_pos.mpr hq1
          have hfalse := hstr q1.length hklt hk0
          rw [hk1] at hfalse
          rw [hsuf] at hfalse
          cases hfalse
      · rw [if_neg hp]
        rw [inf_of_cons, Bool.or_eq_true] at hinf
        have hcl : cs.length ≤ n := by
          simp only [List.length_cons] at hl
          omega
        rcases hinf with hinf | hinf
        · have : pre_of q (pyReplace (c :: cs) (p0 :: pt) (p0 :: rt)) =
              true := (pre_of_pyReplace_iff p0 pt rt q hq (c :: cs)).mpr hinf
          rw [pyReplace_cons _ _ _ _ (by simp), if_neg hp] at this
          exact pre_of_inf this
        · exact inf_of_cons_of_inf c (ih cs hcl hinf)

/-- Occurrences of a probe string `q` in the output of `pyReplace` already
occur in the input, when `q` avoids the shared head character, does not
occur in the replacement, and no nonempty proper piece of `q` can end the
replacement. -/
theorem inf_of_of_inf_pyReplace (p0 : Char) (pt rt q : List Char)
    (hq : ∀ x ∈ q, x ≠ p0)
    (hqr : inf_of q (p0 :: rt) = false)
    (hstr : ∀ k, k < q.length → 0 < k →
      suf_of (List.take k q) (p0 :: rt) = false) :
    ∀ l, inf_of q (pyReplace l (p0 :: pt) (p0 :: rt)) = true →
      inf_of q l = true := by
  intro l
  suffices H : ∀ n l, l.length ≤ n →
      inf_of q (pyReplace l (p0 :: pt) (p0 :: rt)) = true →
      inf_of q l = true from H l.length l le_rfl
  intro n
  induction n with
  | zero =>
    intro l hl hinf
    have : l = [] := List.eq_nil_of_length_eq_zero (Nat.le_zero.mp hl)
    subst this
    rwa [pyReplace_nil _ _ (by simp)] at hinf
  | succ n ih =>
    intro l hl hinf
    cases l with
    | nil => rwa [pyReplace_nil _ _ (by simp)] at hinf
    | cons c cs =>
      rw [pyReplace_cons _ _ _ _ (by simp)] at hinf
      by_cases hp : pre_of (p0 :: pt) (c :: cs) = true
      · rw [if_pos hp] at hinf
        have hdec := pre_of_drop hp
        have hdl : (List.drop (p0 :: pt).length (c :: cs)).length ≤ n := by
          simp only [List.length_drop, List.length_cons]
          simp only [List.length_cons] at hl
          omega
        rcases inf_of_append_cases hinf with h1 | h1 |
          ⟨q1, q2, hq12, hq1, hq2, hsuf, hpre⟩
        · rw [h1] at hqr
          cases hqr
        · rw [hdec]
          exact inf_of_append_right _ (ih _ hdl h1)
        · exfalso
          have hk1 : List.take q1.length q = q1 := by
            rw [hq12]
            exact List.take_left q1 q2
          have hklt : q1.length < q.length := by
            rw [hq12, List.length_append]
            have : 0 < q2.length := List.length_pos.mpr hq2
            omega
          have hk0 : 0 < q1.length := List.length_pos.mpr hq1
          have hfalse := hstr q1.length hklt hk0
          rw [hk1] at hfalse
          rw [hsuf] at hfalse
          cases hfalse
      · rw [if_neg hp] at hinf
        rw [inf_of_cons, Bool.or_eq_true] at hinf
        have hcl : cs.length ≤ n := by
          simp only [List.length_cons] at hl
          omega
        rcases hinf with hinf | hinf
        · have : pre_of q (pyReplace (c :: cs) (p0 :: pt) (p0 :: rt)) =
              true := by
            rw [pyReplace_cons _ _ _ _ (by simp), if_neg hp]
            exact hinf
          have := (pre_of_pyReplace_iff p0 pt rt q hq (c :: cs)).mp this
          exact pre_of_inf this
        · exact inf_of_cons_of_inf c (ih cs hcl hinf)

/-- After `pyReplace`, the pattern no longer occurs in the output: no
occurrence survives and none is created by the replacement, provided the
pattern does not occur in the replacement, cannot straddle a replacement
boundary, and its tail avoids its head character. -/
theorem pyReplace_no_pat (p0 : Char) (pt rt : List Char)
    (hpt : ∀ x ∈ pt, x ≠ p0)
    (hpr : inf_of (p0 :: pt) (p0 :: rt) = false)
    (hstr : ∀ k, k < (p0 :: pt).length → 0 < k →
      suf_of (List.take k (p0 :: pt)) (p0 :: rt) = false) :
    ∀ l, inf_of (p0 :: pt) (pyReplace l (p0 :: pt) (p0 :: rt)) = false := by
  intro l
  suffices H : ∀ n l, l.length ≤ n →
      inf_of (p0 :: pt) (pyReplace l (p0 :: pt) (p0 :: rt)) = false from
    H l.length l le_rfl
  intro n
  induction n with
  | zero =>
    intro l hl
    have : l = [] := List.eq_nil_of_length_eq_zero (Nat.le_zero.mp hl)
    subst this
    rw [pyReplace_nil _ _ (by simp)]
    rfl
  | succ n ih =>
    intro l hl
    cases l with
    | nil =>
      rw [pyReplace_nil _ _ (by simp)]
      rfl
    | cons c cs =>
      rw [pyReplace_cons _ _ _ _ (by simp)]
      by_cases hp : pre_of (p0 :: pt) (c :: cs) = true
      · rw [if_pos hp]
        have hdl : (List.drop (p0 :: pt).length (c :: cs)).length ≤ n := by
          simp only [List.length_drop, List.length_cons]
          simp only [List.length_cons] at hl
          omega
        by_contra hc
        simp only [Bool.not_eq_false] at hc
        rcases inf_of_append_cases hc with h1 | h1 |
          ⟨q1, q2, hq12, hq1, hq2, hsuf, hpre⟩
        · rw [h1] at hpr
          cases hpr
        · rw [ih _ hdl] at h1
          cases h1
        · have hk1 : List.take q1.length (p0 :: pt) = q1 := by
            rw [hq12]
            exact List.take_left q1 q2
          have hklt : q1.length < (p0 :: pt).length := by
            rw [hq12, List.length_append]
            have : 0 < q2.length := List.length_pos.mpr hq2
            omega
          have hk0 : 0 < q1.length := List.length_pos.mpr hq1
          have hfalse := hstr q1.length hklt hk0
          rw [hk1] at hfalse
          rw [hsuf] at hfalse
          cases hfalse
      · rw [if_neg hp]
        have hcl : cs.length ≤ n := by
          simp only [List.length_cons] at hl
          omega
        by_contra hc
        simp only [Bool.not_eq_false] at hc
        rw [inf_of_cons, Bool.or_eq_true] at hc
        rcases hc with hc | hc
        · rw [pre_of_cons, Bool.and_eq_true, beq_iff_eq] at hc
          obtain ⟨rfl, hc2⟩ := hc
          have := (pre_of_pyReplace_iff p0 pt rt pt hpt cs).mp ?_
          · apply hp
            rw [pre_of_cons, Bool.and_eq_true, beq_iff_eq]
            exact ⟨rfl, this⟩
          · exact hc2
        · rw [ih cs hcl] at hc
          cases hc

/-! #### Characterizations of `pySplit` on single-character separators -/

theorem inf_of_single_mem (b : Char) (l : List Char) :
    inf_of [b] l = true ↔ b ∈ l := by
  rw [inf_of_iff]
  constructor
  · rintro ⟨u, v, rfl⟩
    simp
  · intro hb
    obtain ⟨s, t, rfl⟩ := List.append_of_mem hb
    exact ⟨s, t, by simp⟩

theorem pySplit_no_sep {sep l : List Char} (hsep : sep ≠ [])
    (h : inf_of sep l = false) : pySplit l sep = [l] := by
  induction l with
  | nil =>
    cases sep with
    | nil => exact absurd rfl hsep
    | cons a as => rfl
  | cons c cs ih =>
    rw [inf_of_cons, Bool.or_eq_false_iff] at h
    rw [pySplit_cons _ _ _ hsep, if_neg (by simp [h.1]), ih h.2]

theorem pySplit_sep_tail {sep l : List Char} (hsep : sep ≠ [])
    (h : inf_of sep l = true) :
    ∃ hd tl, pySplit l sep = hd :: tl ∧ tl ≠ [] := by
  suffices H : ∀ n l, l.length ≤ n → inf_of sep l = true →
      ∃ hd tl, pySplit l sep = hd :: tl ∧ tl ≠ [] from H l.length l le_rfl h
  intro n
  induction n with
  | zero =>
    intro l hl hinf
    have : l = [] := List.eq_nil_of_length_eq_zero (Nat.le_zero.mp hl)
    subst this
    cases sep with
    | nil => exact absurd rfl hsep
    | cons a as => simp [inf_of] at hinf
  | succ n ih =>
    intro l hl hinf
    cases l with
    | nil =>
      cases sep with
      | nil => exact absurd rfl hsep
      | cons a as => simp [inf_of] at hinf
    | cons c cs =>
      rw [pySplit_cons _ _ _ hsep]
      by_cases hp : pre_of sep (c :: cs) = true
      · rw [if_pos hp]
        exact ⟨[], _, rfl, pySplit_ne_nil _ _⟩
      · rw [if_neg hp]
        rw [inf_of_cons, Bool.or_eq_true] at hinf
        rcases hinf with hinf | hinf
        · exact absurd hinf hp
        · have hcl : cs.length ≤ n := by
            simp only [List.length_cons] at hl
            omega
          obtain ⟨hd, tl, heq, htl⟩ := ih cs hcl hinf
          rw [heq]
          exact ⟨c :: hd, tl, rfl, htl⟩

/-- The first piece of a single-character split is the text before the
first occurrence of the separator. -/
theorem pySplit_head_single (b : Char) (l : List Char) :
    ∃ tl, pySplit l [b] = l.takeWhile (fun a => a != b) :: tl := by
  induction l with
  | nil => exact ⟨[], rfl⟩
  | cons c cs ih =>
    rw [pySplit_cons _ _ _ (by simp)]
    by_cases hcb : b = c
    · subst hcb
      rw [if_pos (by simp [pre_of_cons])]
      refine ⟨pySplit (List.drop [b].length (b :: cs)) [b], ?_⟩
      simp [List.takeWhile_cons]
    · rw [if_neg (by simp [pre_of_cons]; exact fun h => absurd h hcb)]
      obtain ⟨tl, htl⟩ := ih
      rw [htl]
      have hcbne : ((c != b) : Bool) = true := by
        simp only [bne_iff_ne, ne_eq]
        exact fun h => absurd h.symm hcb
      exact ⟨tl, by simp [List.takeWhile_cons, hcbne]⟩

theorem headD_pySplit_single (b : Char) (l : List Char) :
    headD (pySplit l [b]) [] = l.takeWhile (fun a => a != b) := by
  obtain ⟨tl, htl⟩ := pySplit_head_single b l
  rw [htl]
  rfl

theorem takeWhile_append_all {f : Char → Bool} {u : List Char}
    (h : ∀ x ∈ u, f x = true) (v : List Char) :
    List.takeWhile f (u ++ v) = u ++ List.takeWhile f v := by
  induction u with
  | nil => simp
  | cons c u' ih =>
    have hc : f c = true := h c (by simp)
    rw [List.cons_append, List.takeWhile_cons, hc, if_pos rfl,
      ih (fun x hx => h x (by simp [hx]))]
    rfl

theorem takeWhile_append_stop {f : Char → Bool} {u : List Char}
    (h : ∃ x ∈ u, f x = false) (v : List Char) :
    List.takeWhile f (u ++ v) = List.takeWhile f u := by
  induction u with
  | nil =>
    obtain ⟨x, hx, _⟩ := h
    simp at hx
  | cons c u' ih =>
    rw [List.cons_append, List.takeWhile_cons, List.takeWhile_cons]
    cases hc : f c with
    | false => rfl
    | true =>
      obtain ⟨x, hx, hfx⟩ := h
      rcases List.mem_cons.mp hx with rfl | hx'
      · rw [hc] at hfx
        cases hfx
      · rw [ih ⟨x, hx', hfx⟩]

theorem takeWhile_all {f : Char → Bool} {u : List Char}
    (h : ∀ x ∈ u, f x = true) : List.takeWhile f u = u := by
  have := takeWhile_append_all h []
  simpa using this

/-- The last piece of a single-character split is the text after the last
occurrence of the separator. -/
theorem lastD_pySplit_single (b : Char) (l : List Char) :
    lastD (pySplit l [b]) [] =
      (l.reverse.takeWhile (fun a => a != b)).reverse := by
  induction l with
  | nil => rfl
  | cons c cs ih =>
    rw [pySplit_cons _ _ _ (by simp)]
    by_cases hcb : b = c
    · subst hcb
      rw [if_pos (by simp [pre_of_cons])]
      obtain ⟨hd, tl, heq⟩ : ∃ hd tl, pySplit cs [b] = hd :: tl := by
        cases hq : pySplit cs [b] with
        | nil => exact absurd hq (pySplit_ne_nil _ _)
        | cons h t => exact ⟨h, t, rfl⟩
      have hdrop : List.drop [b].length (b :: cs) = cs := by simp
      rw [hdrop, heq]
      have hlast : lastD ([] :: hd :: tl) [] = lastD (hd :: tl) [] := by
        rw [lastD, lastD, List.getLast?_cons_cons]
      rw [hlast, ← heq, ih]
      by_cases hbin : b ∈ cs
      · have : ∃ x ∈ cs.reverse, (fun a => a != b) x = false :=
          ⟨b, by simp [hbin], by simp⟩
        rw [List.reverse_cons, takeWhile_append_stop this]
      · have hall : ∀ x ∈ cs.reverse, (x != b) = true := by
          intro x hx
          simp only [bne_iff_ne, ne_eq]
          rintro rfl
          exact hbin (by simpa using hx)
        rw [List.reverse_cons, takeWhile_append_all hall]
        have hone : List.takeWhile (fun a => a != b) [b] = [] := by
          simp [List.takeWhile_cons]
        rw [hone, List.append_nil, takeWhile_all hall]
    · rw [if_neg (by simp [pre_of_cons]; exact fun h => absurd h hcb)]
      obtain ⟨hd, tl, heq⟩ : ∃ hd tl, pySplit cs [b] = hd :: tl := by
        cases hq : pySplit cs [b] with
        | nil => exact absurd hq (pySplit_ne_nil _ _)
        | cons h t => exact ⟨h, t, rfl⟩
      rw [heq]
      cases tl with
      | nil =>
        -- the separator does not occur in cs
        have hnin : inf_of [b] cs = false := by
          cases hq : inf_of [b] cs with
          | false => rfl
          | true =>
            obtain ⟨hd', tl', heq', htl'⟩ := pySplit_sep_tail (by simp) hq
            rw [heq] at heq'
            cases heq'
            exact absurd rfl htl'
        have hcseq : hd = cs := by
          have := pySplit_no_sep (by simp [show ([b] : List Char) ≠ []
            from by simp]) hnin
          rw [heq] at this
          cases this
          rfl
        rw [hcseq]
        have hbnin : b ∉ cs := fun hmem =>
          by rw [(inf_of_single_mem b cs).mpr hmem] at hnin; cases hnin
        have hall : ∀ x ∈ cs.reverse ++ [c], (x != b) = true := by
          intro x hx
          simp only [bne_iff_ne, ne_eq]
          intro hxb
          rcases List.mem_append.mp hx with hx' | hx'
          · have hxcs : x ∈ cs := by simpa using hx'
            rw [hxb] at hxcs
            exact hbnin hxcs
          · have hxc : x = c := by simpa using hx'
            rw [hxc] at hxb
            exact hcb hxb.symm
        rw [lastD, List.getLast?_singleton, Option.getD_some,
          List.reverse_cons, takeWhile_all hall]
        simp
      | cons y tl' =>
        -- the separator occurs in cs
        have hin : inf_of [b] cs = true := by
          cases hq : inf_of [b] cs with
          | true => rfl
          | false =>
            have := pySplit_no_sep (by simp) hq
            rw [heq] at this
            cases this
        have hlast : lastD ((c :: hd) :: y :: tl') [] =
            lastD (hd :: y :: tl') [] := by
          rw [lastD, lastD, List.getLast?_cons_cons, List.getLast?_cons_cons]
        rw [hlast, ← heq, ih]
        have hbin : b ∈ cs := (inf_of_single_mem b cs).mp hin
        have : ∃ x ∈ cs.reverse, (fun a => a != b) x = false :=
          ⟨b, by simp [hbin], by simp⟩
        rw [List.reverse_cons, takeWhile_append_stop this]

/-! #### `pyStrip` and membership facts used for the metric-name token -/

theorem pyStrip_decomp (l : List Char) :
    ∃ u w, l = u ++ pyStrip l ++ w := by
  refine ⟨List.takeWhile isPySpace l,
    ((List.dropWhile isPySpace l).reverse.takeWhile isPySpace).reverse, ?_⟩
  have key : pyStrip l ++
      ((List.dropWhile isPySpace l).reverse.takeWhile isPySpace).reverse =
      List.dropWhile isPySpace l := by
    rw [pyStrip, ← List.reverse_append, List.takeWhile_append_dropWhile,
      List.reverse_reverse]
  rw [List.append_assoc, key, List.takeWhile_append_dropWhile]

theorem pyStrip_inf (l : List Char) : inf_of (pyStrip l) l = true := by
  obtain ⟨u, w, h⟩ := pyStrip_decomp l
  exact (inf_of_iff _ _).mpr ⟨u, w, h⟩

theorem lastD_mem {xs : List (List Char)} (d : List Char) (h : xs ≠ []) :
    lastD xs d ∈ xs := by
  induction xs with
  | nil => exact absurd rfl h
  | cons x xs ih =>
    cases xs with
    | nil => simp [lastD]
    | cons y ys =>
      have hstep : lastD (x :: y :: ys) d = lastD (y :: ys) d := by
        rw [lastD, lastD, List.getLast?_cons_cons]
      rw [hstep]
      exact List.mem_cons_of_mem x (ih (by simp))

theorem pySplit_head_pre {sep : List Char} (hsep : sep ≠ []) (l : List Char) :
    ∃ hd tl, pySplit l sep = hd :: tl ∧ pre_of hd l = true := by
  suffices H : ∀ n l, l.length ≤ n →
      ∃ hd tl, pySplit l sep = hd :: tl ∧ pre_of hd l = true from
    H l.length l le_rfl
  intro n
  induction n with
  | zero =>
    intro l hl
    have : l = [] := List.eq_nil_of_length_eq_zero (Nat.le_zero.mp hl)
    subst this
    exact ⟨[], [], rfl, by simp⟩
  | succ n ih =>
    intro l hl
    cases l with
    | nil => exact ⟨[], [], rfl, by simp⟩
    | cons c cs =>
      rw [pySplit_cons _ _ _ hsep]
      by_cases hp : pre_of sep (c :: cs) = true
      · rw [if_pos hp]
        exact ⟨[], _, rfl, by simp⟩
      · rw [if_neg hp]
        have hcl : cs.length ≤ n := by
          simp only [List.length_cons] at hl
          omega
        obtain ⟨hd, tl, heq, hpre⟩ := ih cs hcl
        rw [heq]
        refine ⟨c :: hd, tl, rfl, ?_⟩
        rw [pre_of_cons, Bool.and_eq_true, beq_iff_eq]
        exact ⟨rfl, hpre⟩

theorem pySplit_mem_inf {sep : List Char} (hsep : sep ≠ []) :
    ∀ l x, x ∈ pySplit l sep → inf_of x l = true := by
  suffices H : ∀ n l, l.length ≤ n → ∀ x, x ∈ pySplit l sep →
      inf_of x l = true from fun l x hx => H l.length l le_rfl x hx
  intro n
  induction n with
  | zero =>
    intro l hl x hx
    have : l = [] := List.eq_nil_of_length_eq_zero (Nat.le_zero.mp hl)
    subst this
    rw [pySplit_nil] at hx
    simp only [List.mem_singleton] at hx
    subst hx
    exact inf_of_nil_pat []
  | succ n ih =>
    intro l hl x hx
    cases l with
    | nil =>
      rw [pySplit_nil] at hx
      simp only [List.mem_singleton] at hx
      subst hx
      exact inf_of_nil_pat []
    | cons c cs =>
      rw [pySplit_cons _ _ _ hsep] at hx
      by_cases hp : pre_of sep (c :: cs) = true
      · rw [if_pos hp] at hx
        have hdl : (List.drop sep.length (c :: cs)).length ≤ n := by
          have : 0 < sep.length := List.length_pos.mpr hsep
          simp only [List.length_drop, List.length_cons]
          simp only [List.length_cons] at hl
          omega
        rcases List.mem_cons.mp hx with rfl | hx'
        · exact inf_of_nil_pat _
        · have := ih _ hdl x hx'
          rw [pre_of_drop hp]
          exact inf_of_append_right _ this
      · rw [if_neg hp] at hx
        have hcl : cs.length ≤ n := by
          simp only [List.length_cons] at hl
          omega
        obtain ⟨hd, tl, heq, hpre⟩ := pySplit_head_pre hsep cs
        rw [heq] at hx
        rcases List.mem_cons.mp hx with rfl | hx'
        · apply pre_of_inf
          rw [pre_of_cons, Bool.and_eq_true, beq_iff_eq]
          exact ⟨rfl, hpre⟩
        · have : x ∈ pySplit cs sep := by
            rw [heq]
            exact List.mem_cons_of_mem hd hx'
          exact inf_of_cons_of_inf c (ih cs hcl x this)

/-! ### JSON documents -/

/-- JSON values as parsed by Python's `json` module.  Objects are
insertion-ordered association lists, matching Python `dict` semantics for
the documents handled by the script; numbers are modelled as integers (the
script performs no arithmetic on them). -/
inductive Json where
  | null : Json
  | bool : Bool → Json
  | num : Int → Json
  | str : List Char → Json
  | arr : List Json → Json
  | obj : List (List Char × Json) → Json

/-- Python `d[k]` / `d.get(k)` on a `dict`: first (unique) matching key. -/
def objGet : List (List Char × Json) → List Char → Option Json
  | [], _ => none
  | (k, v) :: rest, key => if k = key then some v else objGet rest key

/-- Python `d[k] = v` on a `dict`: overwrite in place if the key exists,
otherwise append the new binding at the end (insertion order). -/
def objSet : List (List Char × Json) → List Char → Json → List (List Char × Json)
  | [], key, v => [(key, v)]
  | (k, w) :: rest, key, v =>
    if k = key then (k, v) :: rest else (k, w) :: objSet rest key v

/-- Field lookup on a JSON value (none when the value is not an object). -/
def jGet (j : Json) (key : List Char) : Option Json :=
  match j with
  | .obj fields => objGet fields key
  | _ => none

/-- Python truthiness of a JSON value (`bool(v)`). -/
def pyTruthy : Json → Bool
  | .null => false
  | .bool b => b
  | .num n => n != 0
  | .str s => !s.isEmpty
  | .arr xs => !xs.isEmpty
  | .obj fields => !fields.isEmpty

/-- Decimal rendering of the integers appearing in documents (Python
`str(n)` for `int`). -/
def intChars (n : Int) : List Char :=
  if n < 0 then '-' :: Nat.toDigits 10 (-n).toNat
  else Nat.toDigits 10 n.toNat

mutual
/-- Rendering of a JSON value in the style of Python `repr`, used for the
container cases of `str(v)` in f-strings (escaping of quotes inside
strings is not modelled; the script only formats panel ids and titles,
which are scalars). -/
def pyRepr : Json → List Char
  | .null => S "None"
  | .bool true => S "True"
  | .bool false => S "False"
  | .num n => intChars n
  | .str s => '\x27' :: (s ++ ['\x27'])
  | .arr xs => '[' :: (pyReprArr xs ++ [']'])
  | .obj fields => braceC :: (pyReprObj fields ++ [rbraceC])

/-- Comma-separated `repr` of the elements of a JSON array. -/
def pyReprArr : List Json → List Char
  | [] => []
  | [x] => pyRepr x
  | x :: y :: xs => pyRepr x ++ S ", " ++ pyReprArr (y :: xs)

/-- Comma-separated `key: value` pieces of a JSON object's `repr`. -/
def pyReprObj : List (List Char × Json) → List Char
  | [] => []
  | [kv] => ('\x27' :: (kv.1 ++ ['\x27'])) ++ S ": " ++ pyRepr kv.2
  | kv :: kw :: fs =>
    ('\x27' :: (kv.1 ++ ['\x27'])) ++ S ": " ++ pyRepr kv.2 ++ S ", " ++
      pyReprObj (kw :: fs)
end

/-- Python `str(v)` as used by f-strings: identity on strings, `repr`-style
rendering otherwise. -/
def pyStr (j : Json) : List Char :=
  match j with
  | .str s => s
  | _ => pyRepr j

/-! ### The script: configuration table (`DASHBOARD_CONFIGS`) -/

/-- One entry of a `drill_down_links` list in the configuration table. -/
structure DashLink where
  title : List Char
  url : List Char
  tooltip : List Char

/-- One per-file configuration from `DASHBOARD_CONFIGS`. -/
structure DashConfig where
  specific_variables : List Json
  drill_down_links : List DashLink
  alert_filter : List Char

/-- Configuration for `message-processing.json`. -/
def message_processing_config : DashConfig where
  specific_variables := [
    .obj [
      (S "name", .str (S "queue")),
      (S "type", .str (S "query")),
      (S "query", .str (S "label_values(birthday_scheduler_queue_depth\x7bnamespace=\"$namespace\", instance=~\"$instance\"\x7d, queue_name)")),
      (S "label", .str (S "Queue")),
      (S "description", .str (S "Filter by queue name")),
      (S "includeAll", .bool true),
      (S "multi", .bool true)]]
  drill_down_links := [
    { title := S "Database Dashboard",
      url := S "/d/database?var-namespace=$namespace&var-instance=$instance&from=$__from&to=$__to",
      tooltip := S "View database metrics for queue persistence" },
    { title := S "Overview Dashboard",
      url := S "/d/overview?var-namespace=$namespace&from=$__from&to=$__to",
      tooltip := S "Return to overview dashboard" }]
  alert_filter := S "QueueDepthCritical|DLQMessagesPresent|HighMessageRetryRate|MessageProcessingSlow|MessageDeliveryRate|MessageSuccessRate"

/-- Configuration for `database.json`. -/
def database_config : DashConfig where
  specific_variables := [
    .obj [
      (S "name", .str (S "table")),
      (S "type", .str (S "query")),
      (S "query", .str (S "label_values(birthday_scheduler_database_query_duration_seconds_bucket\x7bnamespace=\"$namespace\", instance=~\"$instance\"\x7d, table)")),
      (S "label", .str (S "Table")),
      (S "description", .str (S "Filter by table name")),
      (S "includeAll", .bool true),
      (S "multi", .bool true)]]
  drill_down_links := [
    { title := S "Infrastructure Dashboard",
      url := S "/d/infrastructure?var-namespace=$namespace&var-instance=$instance&from=$__from&to=$__to",
      tooltip := S "View system resource impact on database" },
    { title := S "Overview Dashboard",
      url := S "/d/overview?var-namespace=$namespace&from=$__from&to=$__to",
      tooltip := S "Return to overview dashboard" }]
  alert_filter := S "DBConnectionPoolExhausted|DatabaseDown|DBConnectionPoolHigh|SlowQueries|DatabaseQueryLatency"

/-- Configuration for `infrastructure.json`. -/
def infrastructure_config : DashConfig where
  specific_variables := [
    .obj [
      (S "name", .str (S "node")),
      (S "type", .str (S "query")),
      (S "query", .str (S "label_values(birthday_scheduler_process_cpu_seconds_total\x7bnamespace=\"$namespace\"\x7d, instance)")),
      (S "label", .str (S "Node")),
      (S "description", .str (S "Filter by node/server")),
      (S "includeAll", .bool true),
      (S "multi", .bool true)]]
  drill_down_links := [
    { title := S "Overview Dashboard",
      url := S "/d/overview?var-namespace=$namespace&from=$__from&to=$__to",
      tooltip := S "Return to overview dashboard" }]
  alert_filter := S "ServiceDown|MemoryExhausted|CPUUsageHigh|MemoryUsageHigh|EventLoopLagHigh|HighGCPauseTime"

/-- Configuration for `overview-dashboard.json`. -/
def overview_dashboard_config : DashConfig where
  specific_variables := []
  drill_down_links := [
    { title := S "API Performance",
      url := S "/d/api-performance?var-namespace=$namespace&from=$__from&to=$__to",
      tooltip := S "View detailed API metrics" },
    { title := S "Message Processing",
      url := S "/d/message-processing?var-namespace=$namespace&from=$__from&to=$__to",
      tooltip := S "View message queue metrics" },
    { title := S "Database",
      url := S "/d/database?var-namespace=$namespace&from=$__from&to=$__to",
      tooltip := S "View database performance" },
    { title := S "Infrastructure",
      url := S "/d/infrastructure?var-namespace=$namespace&from=$__from&to=$__to",
      tooltip := S "View infrastructure health" },
    { title := S "Security",
      url := S "/d/security?var-namespace=$namespace&from=$__from&to=$__to",
      tooltip := S "View security metrics" }]
  alert_filter := S ".*"

/-- Configuration for `security.json`. -/
def security_config : DashConfig where
  specific_variables := []
  drill_down_links := [
    { title := S "Overview Dashboard",
      url := S "/d/overview?var-namespace=$namespace&from=$__from&to=$__to",
      tooltip := S "Return to overview dashboard" },
    { title := S "API Performance",
      url := S "/d/api-performance?var-namespace=$namespace&from=$__from&to=$__to",
      tooltip := S "View API security details" }]
  alert_filter := S "SecurityBreach|UnauthorizedAccess|HighFailedLogins|RateLimitExceeded"

/-- The `DASHBOARD_CONFIGS` table, in source order (Python dicts preserve
insertion order, and `main` iterates over `DASHBOARD_CONFIGS.items()`). -/
def DASHBOARD_CONFIGS : List (List Char × DashConfig) := [
  (S "message-processing.json", message_processing_config),
  (S "database.json", database_config),
  (S "infrastructure.json", infrastructure_config),
  (S "overview-dashboard.json", overview_dashboard_config),
  (S "security.json", security_config)]

/-! ### The script: `get_common_variables`, `create_annotations`, `create_links` -/

/-- The function `get_common_variables`: the four variables shared by all dashboards. -/
def get_common_variables : List Json := [
  .obj [
    (S "name", .str (S "datasource")),
    (S "type", .str (S "datasource")),
    (S "query", .str (S "prometheus")),
    (S "current", .obj [(S "text", .str (S "Prometheus")),
      (S "value", .str (S "Prometheus"))]),
    (S "hide", .num 0),
    (S "includeAll", .bool false),
    (S "multi", .bool false),
    (S "options", .arr []),
    (S "refresh", .num 1),
    (S "regex", .str (S "")),
    (S "skipUrlSync", .bool false)],
  .obj [
    (S "name", .str (S "namespace")),
    (S "type", .str (S "query")),
    (S "datasource", .str (S "$\x7bdatasource\x7d")),
    (S "query", .str (S "label_values(birthday_scheduler_api_requests_total, namespace)")),
    (S "current", .obj [(S "text", .str (S "production")),
      (S "value", .str (S "production"))]),
    (S "hide", .num 0),
    (S "includeAll", .bool false),
    (S "multi", .bool false),
    (S "options", .arr []),
    (S "refresh", .num 1),
    (S "regex", .str (S "")),
    (S "skipUrlSync", .bool false),
    (S "sort", .num 1),
    (S "label", .str (S "Namespace")),
    (S "description", .str (S "Kubernetes namespace filter"))],
  .obj [
    (S "name", .str (S "instance")),
    (S "type", .str (S "query")),
    (S "datasource", .str (S "$\x7bdatasource\x7d")),
    (S "query", .str (S "label_values(birthday_scheduler_api_requests_total\x7bnamespace=\"$namespace\"\x7d, instance)")),
    (S "current", .obj [(S "text", .str (S "All")),
      (S "value", .str (S "$__all"))]),
    (S "hide", .num 0),
    (S "includeAll", .bool true),
    (S "multi", .bool true),
    (S "options", .arr []),
    (S "refresh", .num 1),
    (S "regex", .str (S "")),
    (S "skipUrlSync", .bool false),
    (S "sort", .num 1),
    (S "label", .str (S "Instance")),
    (S "description", .str (S "Filter by instance/pod"))],
  .obj [
    (S "name", .str (S "interval")),
    (S "type", .str (S "interval")),
    (S "query", .str (S "1m,5m,10m,30m,1h")),
    (S "current", .obj [(S "text", .str (S "5m")),
      (S "value", .str (S "5m"))]),
    (S "hide", .num 0),
    (S "includeAll", .bool false),
    (S "multi", .bool false),
    (S "options", .arr [
      .obj [(S "text", .str (S "1m")), (S "value", .str (S "1m")),
        (S "selected", .bool false)],
      .obj [(S "text", .str (S "5m")), (S "value", .str (S "5m")),
        (S "selected", .bool true)],
      .obj [(S "text", .str (S "10m")), (S "value", .str (S "10m")),
        (S "selected", .bool false)],
      .obj [(S "text", .str (S "30m")), (S "value", .str (S "30m")),
        (S "selected", .bool false)],
      .obj [(S "text", .str (S "1h")), (S "value", .str (S "1h")),
        (S "selected", .bool false)]]),
    (S "label", .str (S "Interval")),
    (S "description", .str (S "Time aggregation interval"))]]

/-- The single annotation entry built by `create_annotations`; its `expr`
is the f-string `ALERTS\x7balertname=~"<filter>", namespace="$namespace"\x7d`. -/
def annotation_entry (alert_filter : List Char) : Json :=
  .obj [
    (S "datasource", .str (S "$\x7bdatasource\x7d")),
    (S "enable", .bool true),
    (S "expr", .str (S "ALERTS\x7balertname=~\"" ++ alert_filter ++
      S "\", namespace=\"$namespace\"\x7d")),
    (S "iconColor", .str (S "rgba(255, 96, 96, 1)")),
    (S "name", .str (S "Alerts")),
    (S "step", .str (S "60s")),
    (S "tagKeys", .str (S "alertname,severity")),
    (S "textFormat", .str (S "\x7b\x7balertname\x7d\x7d: \x7b\x7bseverity\x7d\x7d")),
    (S "titleFormat", .str (S "Alert"))]

/-- The function `create_annotations`: a `\x7b"list": [entry]\x7d` object with one entry. -/
def create_annotations (alert_filter : List Char) : Json :=
  .obj [(S "list", .arr [annotation_entry alert_filter])]

/-- One dashboard link as built inside the `create_links` loop. -/
def mk_link (l : DashLink) : Json :=
  .obj [
    (S "title", .str l.title),
    (S "url", .str l.url),
    (S "icon", .str (S "dashboard")),
    (S "tooltip", .str l.tooltip),
    (S "type", .str (S "link")),
    (S "targetBlank", .bool false)]

/-- The function `create_links`: one entry per configured link, in order. -/
def create_links (drill_down_config : List DashLink) : List Json :=
  drill_down_config.map mk_link

/-! ### The script: `update_panel_queries` decomposed -/

/-- The label filter text `namespace="$namespace", instance=~"$instance"`
inserted into query expressions. -/
def label_pair : List Char := S "namespace=\"$namespace\", instance=~\"$instance\""

/-- The branch of `update_panel_queries` for an expression without `\x7b`:
`metric_parts = expr.split("[")`, `metric_name =
metric_parts[0].split("(")[-1].strip()`, then `expr.replace(metric_name,
metric_name + "\x7b...\x7d")` (a replace of every occurrence). -/
def inject_nobrace (e : List Char) : List Char :=
  let metric_parts := pySplit e (S "[")
  if metric_parts.length > 0 then
    let metric_name := pyStrip (lastD (pySplit (headD metric_parts []) (S "(")) [])
    pyReplace e metric_name (metric_name ++ (braceC :: (label_pair ++ [rbraceC])))
  else e

/-- The namespace/instance filter injection of `update_panel_queries`:
when the expression lacks `namespace=` and mentions `birthday_scheduler_`,
a no-op `replace("birthday_scheduler_", "birthday_scheduler_", 1)` runs,
then the first `\x7b` is replaced by `\x7b<filters>, `, and if the
expression still has no `\x7b` the label set is attached after the
computed metric name. -/
def inject_filters (e : List Char) : List Char :=
  if !(inf_of (S "namespace=") e) && inf_of (S "birthday_scheduler_") e then
    let e1 := pyReplace1 e (S "birthday_scheduler_") (S "birthday_scheduler_")
    let e2 := pyReplace1 e1 [braceC] (braceC :: (label_pair ++ S ", "))
    if !(inf_of [braceC] e2) then inject_nobrace e2 else e2
  else e

/-- The whole per-expression rewrite of `update_panel_queries`: filter
injection followed by `expr.replace("[5m]", "[$interval]")`. -/
def update_expr (e : List Char) : List Char :=
  pyReplace (inject_filters e) (S "[5m]") (S "[$interval]")

/-- The body of the target loop of `update_panel_queries` for one target.
A dict target with a string `expr` gets the rewritten expression and a
`refId` of `"A"` when absent; a dict target without `expr` is untouched;
any other target raises exactly when Python would (indexing a string or a
list with the string `"expr"` is a `TypeError`; `"expr" in <num/none/bool>`
is a `TypeError`). -/
def update_target (t : Json) : Except Unit Json :=
  match t with
  | .obj fields =>
    match objGet fields (S "expr") with
    | some (.str e) =>
      let e2 := update_expr e
      let f1 := objSet fields (S "expr") (.str e2)
      if (objGet f1 (S "refId")).isSome then .ok (.obj f1)
      else .ok (.obj (objSet f1 (S "refId") (.str (S "A"))))
    | some _ => .error ()
    | none => .ok t
  | .str cs => if inf_of (S "expr") cs then .error () else .ok t
  | .arr xs =>
    if xs.any (fun x => match x with | .str s => s == S "expr" | _ => false)
    then .error () else .ok t
  | _ => .error ()

/-- Sequential effectful map, stopping at the first raised error, as the
Python `for` loops do. -/
def mapE (f : Json → Except Unit Json) : List Json → Except Unit (List Json)
  | [] => .ok []
  | x :: xs =>
    match f x with
    | .error e => .error e
    | .ok y =>
      match mapE f xs with
      | .error e => .error e
      | .ok ys => .ok (y :: ys)

/-- Iterating `for target in panel["targets"]`.  A list iterates its
elements; a string iterates characters, none of which can contain
`"expr"`, so nothing happens; a dict iterates its keys and raises on the
first key containing `"expr"` (string indexing); anything else raises a
`TypeError` at the `for`. -/
def update_targets_val (v : Json) : Except Unit Json :=
  match v with
  | .arr xs =>
    match mapE update_target xs with
    | .ok ys => .ok (.arr ys)
    | .error e => .error e
  | .str _ => .ok v
  | .obj fields =>
    if fields.any (fun kv => inf_of (S "expr") kv.1) then .error () else .ok v
  | _ => .error ()

/-- The f-string `f"Panel {panel.get('id', '')}: {panel.get('title', 'No title')}"`. -/
def panel_desc (fields : List (List Char × Json)) : List Char :=
  S "Panel " ++
    (match objGet fields (S "id") with
     | some v => pyStr v
     | none => []) ++
  S ": " ++
    (match objGet fields (S "title") with
     | some v => pyStr v
     | none => S "No title")

/-- The body of the panel loop of `update_panel_queries` for one panel:
update the targets (when a `targets` key exists), then set a description
when it is missing or falsy.  A non-dict panel always raises: membership
tests may succeed, but the subsequent indexing or item assignment is a
`TypeError`. -/
def update_panel (p : Json) : Except Unit Json :=
  match p with
  | .obj fields =>
    match (match objGet fields (S "targets") with
           | none => Except.ok fields
           | some tv =>
             match update_targets_val tv with
             | .ok tv2 => .ok (objSet fields (S "targets") tv2)
             | .error e => .error e) with
    | .error e => .error e
    | .ok fields1 =>
      match objGet fields1 (S "description") with
      | none =>
        .ok (.obj (objSet fields1 (S "description") (.str (panel_desc fields1))))
      | some dv =>
        if pyTruthy dv then .ok (.obj fields1)
        else .ok (.obj (objSet fields1 (S "description")
          (.str (panel_desc fields1))))
  | _ => .error ()

/-- Iterating `for panel in panels` in `update_panel_queries`.  A list
iterates its elements; an empty string or empty dict iterates nothing; a
nonempty string or dict yields string panels, which always raise; other
values raise a `TypeError` at the `for`. -/
def update_panels_val (v : Json) : Except Unit Json :=
  match v with
  | .arr xs =>
    match mapE update_panel xs with
    | .ok ys => .ok (.arr ys)
    | .error e => .error e
  | .str [] => .ok v
  | .obj [] => .ok v
  | _ => .error ()

/-! ### The script: `enhance_dashboard` and `main` -/

/-- The `dashboard` sub-object of a loaded document
(`data.get("dashboard", \x7b\x7d)`). -/
def dash_of (j : Json) : Json := (jGet j (S "dashboard")).getD (.obj [])

/-- The function `enhance_dashboard` on the in-memory document: overwrite `templating`
(common variables then specific ones), `links`, `annotations`, then run
`update_panel_queries` over `dashboard.get("panels", [])` (mutating in
place, so the `panels` key is only touched when present), and finally
store the dashboard back under the `dashboard` key.  A non-dict document
raises (`data.get`), as does a non-dict `dashboard` value (item
assignment).  `dash_fields3` is the dashboard dict after the three
assignments to `templating`, `links` and `annotations`. -/
def dash_fields3 (dashFields : List (List Char × Json)) (cfg : DashConfig) :
    List (List Char × Json) :=
  objSet (objSet (objSet dashFields (S "templating")
      (.obj [(S "list", .arr (get_common_variables ++ cfg.specific_variables))]))
    (S "links") (.arr (create_links cfg.drill_down_links)))
    (S "annotations") (create_annotations cfg.alert_filter)

def enhance_dashboard (doc : Json) (cfg : DashConfig) : Except Unit Json :=
  match doc with
  | .obj dfields =>
    match (objGet dfields (S "dashboard")).getD (.obj []) with
    | .obj dashFields =>
      match objGet (dash_fields3 dashFields cfg) (S "panels") with
      | none =>
        .ok (.obj (objSet dfields (S "dashboard")
          (.obj (dash_fields3 dashFields cfg))))
      | some pv =>
        match update_panels_val pv with
        | .ok pv2 =>
          .ok (.obj (objSet dfields (S "dashboard")
            (.obj (objSet (dash_fields3 dashFields cfg) (S "panels") pv2))))
        | .error e => .error e
    | _ => .error ()
  | _ => .error ()

/-- The filesystem visible to the script: parsed documents by file name
(all configured files live in the single `dashboards_dir`). -/
def FS : Type := List Char → Option Json

/-- Writing a document back to a file (`json.dump` over `open(..., 'w')`). -/
def fsWrite (fs : FS) (p : List Char) (v : Json) : FS :=
  fun q => if q = p then some v else fs q

/-- One iteration of the `main` loop: a missing file is skipped
(`continue`), a raising `enhance_dashboard` is caught and skipped
(`except ... continue`), and otherwise the enhanced document is written
back to the same path. -/
def process_file (fs : FS) (entry : List Char × DashConfig) : FS :=
  match fs entry.1 with
  | none => fs
  | some doc =>
    match enhance_dashboard doc entry.2 with
    | .ok out => fsWrite fs entry.1 out
    | .error _ => fs

/-- The effect of one `main`-loop iteration on the document stored at the
entry's own path. -/
def processed_doc (od : Option Json) (cfg : DashConfig) : Option Json :=
  match od with
  | none => none
  | some doc =>
    match enhance_dashboard doc cfg with
    | .ok out => some out
    | .error _ => some doc

/-- The whole `main` loop over `DASHBOARD_CONFIGS`. -/
def run_main (fs : FS) : FS := DASHBOARD_CONFIGS.foldl process_file fs

/-! ### Lemmas about object updates and effectful maps -/

theorem objGet_objSet_same (o : List (List Char × Json)) (k : List Char)
    (v : Json) : objGet (objSet o k v) k = some v := by
  induction o with
  | nil => simp [objSet, objGet]
  | cons kv rest ih =>
    obtain ⟨k', w⟩ := kv
    rw [objSet]
    by_cases hk : k' = k
    · rw [if_pos hk, objGet, if_pos hk]
    · rw [if_neg hk, objGet, if_neg hk, ih]

theorem objGet_objSet_ne (o : List (List Char × Json)) {k k' : List Char}
    (v : Json) (h : k' ≠ k) : objGet (objSet o k v) k' = objGet o k' := by
  induction o with
  | nil =>
    rw [objSet, objGet, objGet, if_neg (fun he => h he.symm)]
    rfl
  | cons kv rest ih =>
    obtain ⟨k0, w⟩ := kv
    rw [objSet]
    by_cases hk : k0 = k
    · rw [if_pos hk, objGet, objGet]
      by_cases hk' : k0 = k'
      · exact absurd (hk'.symm.trans hk) h
      · rw [if_neg hk', if_neg hk']
    · rw [if_neg hk, objGet, objGet]
      by_cases hk' : k0 = k'
      · rw [if_pos hk', if_pos hk']
      · rw [if_neg hk', if_neg hk', ih]

theorem objSet_same {o : List (List Char × Json)} {k : List Char} {v : Json}
    (h : objGet o k = some v) : objSet o k v = o := by
  induction o with
  | nil => cases h
  | cons kv rest ih =>
    obtain ⟨k0, w⟩ := kv
    rw [objGet] at h
    rw [objSet]
    by_cases hk : k0 = k
    · rw [if_pos hk]
      rw [if_pos hk] at h
      obtain rfl : w = v := by injection h
      rfl
    · rw [if_neg hk]
      rw [if_neg hk] at h
      rw [ih h]

theorem objSet_objSet_same (o : List (List Char × Json)) (k : List Char)
    (v w : Json) : objSet (objSet o k v) k w = objSet o k w := by
  induction o with
  | nil => simp [objSet]
  | cons kv rest ih =>
    obtain ⟨k0, u⟩ := kv
    rw [objSet]
    by_cases hk : k0 = k
    · rw [if_pos hk, objSet, if_pos hk, objSet, if_pos hk]
    · rw [if_neg hk, objSet, if_neg hk, objSet, if_neg hk, ih]

theorem mapE_ok_length {f : Json → Except Unit Json} :
    ∀ {xs ys : List Json}, mapE f xs = .ok ys → ys.length = xs.length := by
  intro xs
  induction xs with
  | nil =>
    intro ys h
    rw [mapE] at h
    obtain rfl : ([] : List Json) = ys := by injection h
    rfl
  | cons x xs ih =>
    intro ys h
    rw [mapE] at h
    cases hfx : f x with
    | error e => rw [hfx] at h; cases h
    | ok y =>
      rw [hfx] at h
      cases hrest : mapE f xs with
      | error e => rw [hrest] at h; cases h
      | ok ys' =>
        rw [hrest] at h
        obtain rfl : y :: ys' = ys := by injection h
        simp [ih hrest]

theorem mapE_ok_get {f : Json → Except Unit Json} :
    ∀ {xs ys : List Json}, mapE f xs = .ok ys →
      ∀ i (hi : i < xs.length) (hi' : i < ys.length),
        f (xs.get ⟨i, hi⟩) = .ok (ys.get ⟨i, hi'⟩) := by
  intro xs
  induction xs with
  | nil =>
    intro ys h i hi hi'
    simp at hi
  | cons x xs ih =>
    intro ys h i hi hi'
    rw [mapE] at h
    cases hfx : f x with
    | error e => rw [hfx] at h; cases h
    | ok y =>
      rw [hfx] at h
      cases hrest : mapE f xs with
      | error e => rw [hrest] at h; cases h
      | ok ys' =>
        rw [hrest] at h
        obtain rfl : y :: ys' = ys := by injection h
        cases i with
        | zero => exact hfx
        | succ j =>
          exact ih hrest j (by simpa using hi) (by simpa using hi')

theorem mapE_idem {f : Json → Except Unit Json}
    (hf : ∀ x y, f x = .ok y → f y = .ok y) :
    ∀ {xs ys : List Json}, mapE f xs = .ok ys → mapE f ys = .ok ys := by
  intro xs
  induction xs with
  | nil =>
    intro ys h
    rw [mapE] at h
    obtain rfl : ([] : List Json) = ys := by injection h
    rfl
  | cons x xs ih =>
    intro ys h
    rw [mapE] at h
    cases hfx : f x with
    | error e => rw [hfx] at h; cases h
    | ok y =>
      rw [hfx] at h
      cases hrest : mapE f xs with
      | error e => rw [hrest] at h; cases h
      | ok ys' =>
        rw [hrest] at h
        obtain rfl : y :: ys' = ys := by injection h
        rw [mapE, hf x y hfx, ih hrest]

/-- Characterization of a successful `enhance_dashboard` run. -/
theorem enhance_ok_iff {doc : Json} {cfg : DashConfig} {out : Json} :
    enhance_dashboard doc cfg = .ok out ↔
      ∃ dfields dashFields, doc = .obj dfields ∧
        (objGet dfields (S "dashboard")).getD (.obj []) = .obj dashFields ∧
        ((objGet (dash_fields3 dashFields cfg) (S "panels") = none ∧
            out = .obj (objSet dfields (S "dashboard")
              (.obj (dash_fields3 dashFields cfg)))) ∨
          (∃ pv pv2,
            objGet (dash_fields3 dashFields cfg) (S "panels") = some pv ∧
            update_panels_val pv = .ok pv2 ∧
            out = .obj (objSet dfields (S "dashboard")
              (.obj (objSet (dash_fields3 dashFields cfg) (S "panels") pv2))))) := by
  constructor
  · intro h
    cases doc with
    | null => cases h
    | bool b => cases h
    | num n => cases h
    | str s => cases h
    | arr xs => cases h
    | obj dfields =>
      refine ⟨dfields, ?_⟩
      simp only [enhance_dashboard] at h
      cases hdash : (objGet dfields (S "dashboard")).getD (.obj []) with
      | obj dashFields =>
        rw [hdash] at h
        dsimp only [] at h
        refine ⟨dashFields, rfl, rfl, ?_⟩
        cases hpan : objGet (dash_fields3 dashFields cfg) (S "panels") with
        | none =>
          rw [hpan] at h
          left
          exact ⟨rfl, by injection h with h'; exact h'.symm⟩
        | some pv =>
          rw [hpan] at h
          dsimp only [] at h
          cases hupd : update_panels_val pv with
          | error e => rw [hupd] at h; cases h
          | ok pv2 =>
            rw [hupd] at h
            right
            exact ⟨pv, pv2, rfl, hupd, by injection h with h'; exact h'.symm⟩
      | null => rw [hdash] at h; cases h
      | bool b => rw [hdash] at h; cases h
      | num n => rw [hdash] at h; cases h
      | str s => rw [hdash] at h; cases h
      | arr xs => rw [hdash] at h; cases h
  · rintro ⟨dfields, dashFields, rfl, hdash, hbranch⟩
    simp only [enhance_dashboard]
    rw [hdash]
    dsimp only []
    rcases hbranch with ⟨hpan, rfl⟩ | ⟨pv, pv2, hpan, hupd, rfl⟩
    · rw [hpan]
    · rw [hpan]
      dsimp only []
      rw [hupd]

theorem dash_fields3_templating (d : List (List Char × Json)) (cfg : DashConfig) :
    objGet (dash_fields3 d cfg) (S "templating") =
      some (.obj [(S "list",
        .arr (get_common_variables ++ cfg.specific_variables))]) := by
  rw [dash_fields3, objGet_objSet_ne _ _ (by decide),
    objGet_objSet_ne _ _ (by decide), objGet_objSet_same]

theorem dash_fields3_links (d : List (List Char × Json)) (cfg : DashConfig) :
    objGet (dash_fields3 d cfg) (S "links") =
      some (.arr (create_links cfg.drill_down_links)) := by
  rw [dash_fields3, objGet_objSet_ne _ _ (by decide), objGet_objSet_same]

theorem dash_fields3_annotations (d : List (List Char × Json)) (cfg : DashConfig) :
    objGet (dash_fields3 d cfg) (S "annotations") =
      some (create_annotations cfg.alert_filter) := by
  rw [dash_fields3, objGet_objSet_same]

theorem dash_fields3_other (d : List (List Char × Json)) (cfg : DashConfig)
    {k : List Char} (h1 : k ≠ S "templating") (h2 : k ≠ S "links")
    (h3 : k ≠ S "annotations") :
    objGet (dash_fields3 d cfg) k = objGet d k := by
  rw [dash_fields3, objGet_objSet_ne _ _ h3, objGet_objSet_ne _ _ h2,
    objGet_objSet_ne _ _ h1]

/-- The dashboard object of a successful run, together with which branch
produced it. -/
theorem dash_of_enhance {doc : Json} {cfg : DashConfig} {out : Json}
    (h : enhance_dashboard doc cfg = .ok out) :
    ∃ dashFields f4, dash_of out = .obj f4 ∧
      ((f4 = dash_fields3 dashFields cfg ∧
          objGet (dash_fields3 dashFields cfg) (S "panels") = none) ∨
        (∃ pv pv2,
          objGet (dash_fields3 dashFields cfg) (S "panels") = some pv ∧
          update_panels_val pv = .ok pv2 ∧
          f4 = objSet (dash_fields3 dashFields cfg) (S "panels") pv2)) := by
  obtain ⟨dfields, dashFields, rfl, hdash, hbr⟩ := enhance_ok_iff.mp h
  rcases hbr with ⟨hpan, rfl⟩ | ⟨pv, pv2, hpan, hupd, rfl⟩
  · refine ⟨dashFields, _, ?_, Or.inl ⟨rfl, hpan⟩⟩
    rw [dash_of, jGet, objGet_objSet_same]
    rfl
  · refine ⟨dashFields, _, ?_, Or.inr ⟨pv, pv2, hpan, hupd, rfl⟩⟩
    rw [dash_of, jGet, objGet_objSet_same]
    rfl

/-- Reading a non-`panels` key of the enhanced dashboard goes through
`dash_fields3`. -/
theorem enhance_out_key {doc : Json} {cfg : DashConfig} {out : Json}
    (h : enhance_dashboard doc cfg = .ok out) {k : List Char}
    (hk : k ≠ S "panels") :
    ∃ dashFields,
      jGet (dash_of out) k = objGet (dash_fields3 dashFields cfg) k := by
  obtain ⟨dashFields, f4, hout, hbr⟩ := dash_of_enhance h
  refine ⟨dashFields, ?_⟩
  rw [hout, jGet]
  rcases hbr with ⟨rfl, _⟩ | ⟨pv, pv2, _, _, rfl⟩
  · rfl
  · exact objGet_objSet_ne _ _ hk

/-- Extract the value of a successful `Except` computation. -/
def exOut (r : Except Unit Json) : Json :=
  match r with
  | .ok v => v
  | .error _ => .null

/-! ### Claims about the merged sub-structures (C2, C5, C6) -/

/-- C2: after a successful run, the dashboard's `templating` field is
exactly `\x7b"list": common ++ specific\x7d` where the common variables are
`datasource`, `namespace`, `instance`, `interval` in that order; the value
depends only on the configuration, never on templating variables already
present in the document. -/
theorem claim_C2 : ∀ (doc : Json) (cfg : DashConfig) (out : Json),
    enhance_dashboard doc cfg = .ok out →
    jGet (dash_of out) (S "templating") =
      some (.obj [(S "list",
        .arr (get_common_variables ++ cfg.specific_variables))]) ∧
    get_common_variables.map (fun v => jGet v (S "name")) =
      [some (.str (S "datasource")), some (.str (S "namespace")),
        some (.str (S "instance")), some (.str (S "interval"))] := by
  intro doc cfg out h
  obtain ⟨dashFields, hkey⟩ := enhance_out_key h (k := S "templating") (by decide)
  exact ⟨hkey.trans (dash_fields3_templating dashFields cfg), rfl⟩

/-- Concrete input for the witnesses of the apply-routine claims: a
document whose dashboard has a stray templating list and no panels. -/
def sample_doc : Json :=
  .obj [(S "dashboard", .obj [
    (S "title", .str (S "Overview")),
    (S "templating", .obj [(S "list", .arr [.obj [(S "name", .str (S "old"))]])])])]

theorem claim_C2_witness :
    jGet (dash_of (exOut (enhance_dashboard sample_doc message_processing_config)))
        (S "templating") =
      some (.obj [(S "list",
        .arr (get_common_variables ++
          message_processing_config.specific_variables))]) ∧
    get_common_variables.map (fun v => jGet v (S "name")) =
      [some (.str (S "datasource")), some (.str (S "namespace")),
        some (.str (S "instance")), some (.str (S "interval"))] :=
  claim_C2 sample_doc message_processing_config
    (exOut (enhance_dashboard sample_doc message_processing_config)) rfl

/-- C5: after a successful run, the dashboard's `annotations` field is a
one-entry list whose entry's `expr` is exactly
`ALERTS\x7balertname=~"<filter>", namespace="$namespace"\x7d` for the
configured alert filter. -/
theorem claim_C5 : ∀ (doc : Json) (cfg : DashConfig) (out : Json),
    enhance_dashboard doc cfg = .ok out →
    jGet (dash_of out) (S "annotations") =
      some (.obj [(S "list", .arr [annotation_entry cfg.alert_filter])]) ∧
    ∀ f : List Char, jGet (annotation_entry f) (S "expr") =
      some (.str (S "ALERTS\x7balertname=~\"" ++ f ++
        S "\", namespace=\"$namespace\"\x7d")) := by
  intro doc cfg out h
  obtain ⟨dashFields, hkey⟩ := enhance_out_key h (k := S "annotations") (by decide)
  exact ⟨hkey.trans (dash_fields3_annotations dashFields cfg),
    fun f => rfl⟩

theorem claim_C5_witness :
    jGet (dash_of (exOut (enhance_dashboard sample_doc database_config)))
        (S "annotations") =
      some (.obj [(S "list",
        .arr [annotation_entry database_config.alert_filter])]) ∧
    ∀ f : List Char, jGet (annotation_entry f) (S "expr") =
      some (.str (S "ALERTS\x7balertname=~\"" ++ f ++
        S "\", namespace=\"$namespace\"\x7d")) :=
  claim_C5 sample_doc database_config
    (exOut (enhance_dashboard sample_doc database_config)) rfl

/-- C6: after a successful run, the dashboard's `links` field has exactly
one entry per configured cross-link, in order, copying `title`, `url` and
`tooltip` and adding `icon: dashboard`, `type: link`,
`targetBlank: false`. -/
theorem claim_C6 : ∀ (doc : Json) (cfg : DashConfig) (out : Json),
    enhance_dashboard doc cfg = .ok out →
    jGet (dash_of out) (S "links") =
      some (.arr (create_links cfg.drill_down_links)) ∧
    create_links cfg.drill_down_links = cfg.drill_down_links.map mk_link ∧
    ∀ l : DashLink,
      jGet (mk_link l) (S "title") = some (.str l.title) ∧
      jGet (mk_link l) (S "url") = some (.str l.url) ∧
      jGet (mk_link l) (S "tooltip") = some (.str l.tooltip) ∧
      jGet (mk_link l) (S "icon") = some (.str (S "dashboard")) ∧
      jGet (mk_link l) (S "type") = some (.str (S "link")) ∧
      jGet (mk_link l) (S "targetBlank") = some (.bool false) := by
  intro doc cfg out h
  obtain ⟨dashFields, hkey⟩ := enhance_out_key h (k := S "links") (by decide)
  exact ⟨hkey.trans (dash_fields3_links dashFields cfg), rfl,
    fun l => ⟨rfl, rfl, rfl, rfl, rfl, rfl⟩⟩

theorem claim_C6_witness :
    jGet (dash_of (exOut (enhance_dashboard sample_doc security_config)))
        (S "links") =
      some (.arr (create_links security_config.drill_down_links)) ∧
    create_links security_config.drill_down_links =
      security_config.drill_down_links.map mk_link ∧
    ∀ l : DashLink,
      jGet (mk_link l) (S "title") = some (.str l.title) ∧
      jGet (mk_link l) (S "url") = some (.str l.url) ∧
      jGet (mk_link l) (S "tooltip") = some (.str l.tooltip) ∧
      jGet (mk_link l) (S "icon") = some (.str (S "dashboard")) ∧
      jGet (mk_link l) (S "type") = some (.str (S "link")) ∧
      jGet (mk_link l) (S "targetBlank") = some (.bool false) :=
  claim_C6 sample_doc security_config
    (exOut (enhance_dashboard sample_doc security_config)) rfl

/-! ### Claim C4: the main loop -/

theorem process_file_other (fs : FS) (entry : List Char × DashConfig)
    {q : List Char} (h : q ≠ entry.1) : process_file fs entry q = fs q := by
  cases hfs : fs entry.1 with
  | none => rw [process_file, hfs]
  | some doc =>
    rw [process_file, hfs]
    dsimp only []
    cases henh : enhance_dashboard doc entry.2 with
    | ok out =>
      show fsWrite fs entry.1 out q = fs q
      rw [fsWrite, if_neg h]
    | error e => rfl

theorem process_file_self (fs : FS) (entry : List Char × DashConfig) :
    process_file fs entry entry.1 = processed_doc (fs entry.1) entry.2 := by
  cases hfs : fs entry.1 with
  | none =>
    rw [process_file, hfs, processed_doc]
    exact hfs
  | some doc =>
    rw [process_file, hfs, processed_doc]
    dsimp only []
    cases henh : enhance_dashboard doc entry.2 with
    | ok out =>
      show fsWrite fs entry.1 out entry.1 = some out
      rw [fsWrite, if_pos rfl]
    | error e => exact hfs

theorem foldl_process_lookup :
    ∀ (cfgs : List (List Char × DashConfig)) (fs : FS) (q : List Char),
      (∀ e ∈ cfgs, q ≠ e.1) →
      List.foldl process_file fs cfgs q = fs q := by
  intro cfgs
  induction cfgs with
  | nil => intro fs q _; rfl
  | cons e rest ih =>
    intro fs q hq
    rw [List.foldl_cons, ih _ _ (fun e' he' => hq e' (List.mem_cons_of_mem e he'))]
    exact process_file_other fs e (hq e (by simp))

theorem foldl_process_at :
    ∀ (cfgs : List (List Char × DashConfig)) (fs : FS)
      (entry : List Char × DashConfig),
      entry ∈ cfgs → cfgs.Pairwise (fun a b => a.1 ≠ b.1) →
      List.foldl process_file fs cfgs entry.1 =
        processed_doc (fs entry.1) entry.2 := by
  intro cfgs
  induction cfgs with
  | nil => intro fs entry hmem _; simp at hmem
  | cons e rest ih =>
    intro fs entry hmem hpw
    rw [List.pairwise_cons] at hpw
    rcases List.mem_cons.mp hmem with rfl | hmem'
    · rw [List.foldl_cons]
      rw [foldl_process_lookup rest (process_file fs entry) entry.1
        (fun e' he' => hpw.1 e' he')]
      exact process_file_self fs entry
    · rw [List.foldl_cons, ih (process_file fs e) entry hmem' hpw.2,
        process_file_other fs e
          (show entry.1 ≠ e.1 from fun hq => (hpw.1 entry hmem') hq.symm)]

/-- C4: each configured file is visited exactly once by the `main` loop:
the final document stored at a configured entry's path is the result of
processing that entry alone on that path's original document (a missing
file stays missing, a raising enhancement leaves the file unchanged), so
a failure on one file never affects any other configured file. -/
theorem claim_C4 : ∀ (fs : FS) (entry : List Char × DashConfig),
    entry ∈ DASHBOARD_CONFIGS →
    run_main fs entry.1 = processed_doc (fs entry.1) entry.2 := by
  intro fs entry hmem
  have hpw : DASHBOARD_CONFIGS.Pairwise (fun a b => a.1 ≠ b.1) := by
    rw [DASHBOARD_CONFIGS]
    decide
  exact foldl_process_at DASHBOARD_CONFIGS fs entry hmem hpw

/-- A file system holding only the message-processing dashboard. -/
def sample_fs : FS :=
  fun q => if q = S "message-processing.json" then some sample_doc else none

theorem claim_C4_witness :
    run_main sample_fs (S "message-processing.json", message_processing_config).1 =
      processed_doc (sample_fs (S "message-processing.json", message_processing_config).1)
        (S "message-processing.json", message_processing_config).2 :=
  claim_C4 sample_fs (S "message-processing.json", message_processing_config)
    (by unfold DASHBOARD_CONFIGS; exact List.mem_cons_self _ _)

/-! ### Claim C7: read, enhance, write back -/

/-- C7: for an existing configured file whose enhancement succeeds, the
loop iteration writes the enhanced document back to the very path it was
read from, and the enhanced document's dashboard carries all four
enhancements: the merged templating variables, the links, the alert
annotations, and the updated panels. -/
theorem claim_C7 : ∀ (fs : FS) (entry : List Char × DashConfig) (doc out : Json),
    fs entry.1 = some doc →
    enhance_dashboard doc entry.2 = .ok out →
    process_file fs entry = fsWrite fs entry.1 out ∧
    (process_file fs entry) entry.1 = some out ∧
    jGet (dash_of out) (S "templating") =
      some (.obj [(S "list",
        .arr (get_common_variables ++ entry.2.specific_variables))]) ∧
    jGet (dash_of out) (S "links") =
      some (.arr (create_links entry.2.drill_down_links)) ∧
    jGet (dash_of out) (S "annotations") =
      some (create_annotations entry.2.alert_filter) ∧
    (∀ pv, jGet (dash_of doc) (S "panels") = some pv →
      ∃ pv2, update_panels_val pv = .ok pv2 ∧
        jGet (dash_of out) (S "panels") = some pv2) := by
  intro fs entry doc out hfs henh
  have hwrite : process_file fs entry = fsWrite fs entry.1 out := by
    rw [process_file, hfs]
    dsimp only []
    rw [henh]
  refine ⟨hwrite, ?_, ?_, ?_, ?_, ?_⟩
  · rw [hwrite, fsWrite, if_pos rfl]
  · obtain ⟨dashFields, hkey⟩ := enhance_out_key henh (k := S "templating")
      (by decide)
    exact hkey.trans (dash_fields3_templating dashFields entry.2)
  · obtain ⟨dashFields, hkey⟩ := enhance_out_key henh (k := S "links")
      (by decide)
    exact hkey.trans (dash_fields3_links dashFields entry.2)
  · obtain ⟨dashFields, hkey⟩ := enhance_out_key henh (k := S "annotations")
      (by decide)
    exact hkey.trans (dash_fields3_annotations dashFields entry.2)
  · intro pv hpv
    obtain ⟨dfields, dashFields, hdoc, hdash, hbr⟩ := enhance_ok_iff.mp henh
    have hdashof : dash_of doc = .obj dashFields := by
      rw [hdoc, dash_of, jGet]
      exact hdash
    rw [hdashof, jGet] at hpv
    have hpan3 : objGet (dash_fields3 dashFields entry.2) (S "panels") =
        some pv := by
      rw [dash_fields3_other dashFields entry.2 (by decide) (by decide)
        (by decide)]
      exact hpv
    rcases hbr with ⟨hnone, _⟩ | ⟨pv', pv2, hsome, hupd, rfl⟩
    · rw [hpan3] at hnone
      cases hnone
    · rw [hpan3] at hsome
      obtain rfl : pv' = pv := by injection hsome with h'; exact h'.symm
      refine ⟨pv2, hupd, ?_⟩
      rw [dash_of, jGet, objGet_objSet_same]
      show objGet _ (S "panels") = some pv2
      rw [objGet_objSet_same]

/-- A dashboard document with one panel and one target, read by the
witnesses that exercise the panel-updating path. -/
def sample_panel_doc : Json :=
  .obj [(S "dashboard", .obj [
    (S "title", .str (S "API")),
    (S "panels", .arr [
      .obj [
        (S "id", .num 1),
        (S "title", .str (S "Requests")),
        (S "targets", .arr [
          .obj [(S "expr",
            .str (S "rate(birthday_scheduler_api_requests_total[5m])"))]])]])])]

/-- A file system holding only the database dashboard file. -/
def sample_fs2 : FS :=
  fun q => if q = S "database.json" then some sample_panel_doc else none

theorem claim_C7_witness :
    process_file sample_fs2 (S "database.json", database_config) =
      fsWrite sample_fs2 (S "database.json", database_config).1
        (exOut (enhance_dashboard sample_panel_doc database_config)) ∧
    (process_file sample_fs2 (S "database.json", database_config))
        (S "database.json", database_config).1 =
      some (exOut (enhance_dashboard sample_panel_doc database_config)) ∧
    jGet (dash_of (exOut (enhance_dashboard sample_panel_doc database_config)))
        (S "templating") =
      some (.obj [(S "list",
        .arr (get_common_variables ++
          (S "database.json", database_config).2.specific_variables))]) ∧
    jGet (dash_of (exOut (enhance_dashboard sample_panel_doc database_config)))
        (S "links") =
      some (.arr (create_links
        (S "database.json", database_config).2.drill_down_links)) ∧
    jGet (dash_of (exOut (enhance_dashboard sample_panel_doc database_config)))
        (S "annotations") =
      some (create_annotations
        (S "database.json", database_config).2.alert_filter) ∧
    (∀ pv, jGet (dash_of sample_panel_doc) (S "panels") = some pv →
      ∃ pv2, update_panels_val pv = .ok pv2 ∧
        jGet (dash_of (exOut (enhance_dashboard sample_panel_doc
          database_config))) (S "panels") = some pv2) :=
  claim_C7 sample_fs2 (S "database.json", database_config) sample_panel_doc
    (exOut (enhance_dashboard sample_panel_doc database_config)) rfl rfl

/-! ### Claim C1: the filter injection, characterized -/

/-- Specification-style description of the brace branch: the filter text
is inserted immediately after the first `\x7b` of the expression. -/
def insert_after_first_brace (e ins : List Char) : List Char :=
  e.takeWhile (fun a => a != braceC) ++ [braceC] ++ ins ++
    (e.dropWhile (fun a => a != braceC)).drop 1

/-- The token the script actually attaches the label set to in the
no-brace branch: the text of the expression before the first `[`, then
after the last `(`, stripped of whitespace.  This equals the metric name
for a bare `metric` or `metric[window]` expression, but keeps trailing
characters such as `)` when the metric is wrapped in calls. -/
def metric_token (e : List Char) : List Char :=
  pyStrip (((e.takeWhile (fun a => a != '[')).reverse.takeWhile
    (fun a => a != '(')).reverse)

/-- Specification-style description of the no-brace branch: the label set
`\x7bnamespace="$namespace", instance=~"$instance"\x7d` is appended after
every occurrence of the token (split at the occurrences, rejoin with
token-plus-label-set).  For the degenerate empty token, Python's
`replace` inserts the label set at every character boundary. -/
def append_label_set (e : List Char) : List Char :=
  let token := metric_token e
  if token = [] then
    e.foldr (fun c acc => (braceC :: (label_pair ++ [rbraceC])) ++ c :: acc)
      (braceC :: (label_pair ++ [rbraceC]))
  else
    joinSep (token ++ (braceC :: (label_pair ++ [rbraceC]))) (pySplit e token)

/-- Specification-style description of the whole injection step. -/
def inject_filters_spec (e : List Char) : List Char :=
  if !(inf_of (S "namespace=") e) && inf_of (S "birthday_scheduler_") e then
    if inf_of [braceC] e then
      insert_after_first_brace e (label_pair ++ S ", ")
    else append_label_set e
  else e

/-- C1 (counterexample to the claim as stated): on
`sum(birthday_scheduler_a)` the computed token is `birthday_scheduler_a)`
— including the closing parenthesis — so the label set is appended after
the parenthesis, not directly after the metric name
`birthday_scheduler_a`: no occurrence of the metric name immediately
followed by `\x7b` exists in the output. -/
theorem claim_C1_counterexample :
    inject_filters (S "sum(birthday_scheduler_a)") =
      S "sum(birthday_scheduler_a)\x7bnamespace=\"$namespace\", instance=~\"$instance\"\x7d" ∧
    inf_of (S "birthday_scheduler_a\x7b")
      (inject_filters (S "sum(birthday_scheduler_a)")) = false := by
  constructor
  · decide
  · decide

theorem inject_nobrace_eq_append (e : List Char) :
    inject_nobrace e = append_label_set e := by
  rw [inject_nobrace, append_label_set]
  dsimp only []
  have hne : pySplit e (S "[") ≠ [] := pySplit_ne_nil _ _
  have hp : 0 < (pySplit e (S "[")).length := List.length_pos.mpr hne
  rw [if_pos hp]
  have hbrk : S "[" = ['['] := rfl
  have hpar : S "(" = ['('] := rfl
  have htok : pyStrip (lastD (pySplit (headD (pySplit e (S "[")) []) (S "(")) []) =
      metric_token e := by
    rw [hbrk, headD_pySplit_single, hpar, lastD_pySplit_single, metric_token]
  rw [htok]
  by_cases htoke : metric_token e = []
  · rw [if_pos htoke, htoke]
    rw [pyReplace, if_pos rfl]
    rfl
  · rw [if_neg htoke, pyReplace_eq_join htoke]

/-- C1 (amended): for every target expression containing
`birthday_scheduler_` and not `namespace=`, the injection inserts the
filter text immediately after the first `\x7b` when the expression has a
brace group; otherwise it appends the label set after every occurrence of
the token obtained by taking the text before the first `[`, then after
the last `(`, stripped (the metric name when the metric stands bare, but
possibly carrying trailing characters such as `)`); expressions already
containing `namespace=` or lacking `birthday_scheduler_` are returned
unchanged. -/
theorem claim_C1 : ∀ e : List Char, inject_filters e = inject_filters_spec e := by
  intro e
  rw [inject_filters, inject_filters_spec]
  by_cases hc : (!(inf_of (S "namespace=") e) &&
      inf_of (S "birthday_scheduler_") e) = true
  · rw [if_pos hc, if_pos hc]
    dsimp only []
    rw [pyReplace1_self]
    by_cases hbr : inf_of [braceC] e = true
    · have he2 : pyReplace1 e [braceC] (braceC :: (label_pair ++ S ", ")) =
          insert_after_first_brace e (label_pair ++ S ", ") := by
        rw [pyReplace1_single, if_pos hbr, insert_after_first_brace]
        simp [List.append_assoc]
      have hinf2 : inf_of [braceC]
          (pyReplace1 e [braceC] (braceC :: (label_pair ++ S ", "))) = true := by
        refine inf_of_trans ?_ (pyReplace1_inf_rep (by simp) hbr)
        apply pre_of_inf
        rw [pre_of_cons]
        simp
      rw [hinf2, if_pos hbr, he2]
      rfl
    · have hbrf : inf_of [braceC] e = false := by
        cases h : inf_of [braceC] e with
        | false => rfl
        | true => exact absurd h hbr
      rw [pyReplace1_not_inf hbrf, hbrf]
      rw [if_pos (show ((!false) = true) by simp),
        if_neg (show ¬ (false = true) by simp)]
      exact inject_nobrace_eq_append e
  · rw [if_neg hc, if_neg hc]

/-! ### Claim C3: the time-window substitution -/

/-- C3: the per-expression rewrite splits the (injection-phase) expression
at every occurrence of `[5m]` and rejoins the untouched segments with
`[$interval]` — so every occurrence of `[5m]` is replaced, no occurrence
remains in the output, and all other text (in particular other fixed
windows such as `[1m]` and `[10m]`) is kept verbatim. -/
theorem claim_C3 :
    (∀ e : List Char, update_expr e =
      joinSep (S "[$interval]") (pySplit (inject_filters e) (S "[5m]"))) ∧
    (∀ e : List Char, inf_of (S "[5m]") (update_expr e) = false) ∧
    update_expr (S "rate(birthday_scheduler_x\x7bnamespace=\"p\"\x7d[1m])") =
      S "rate(birthday_scheduler_x\x7bnamespace=\"p\"\x7d[1m])" ∧
    update_expr (S "rate(birthday_scheduler_x\x7bnamespace=\"p\"\x7d[10m])") =
      S "rate(birthday_scheduler_x\x7bnamespace=\"p\"\x7d[10m])" := by
  refine ⟨?_, ?_, by decide, by decide⟩
  · intro e
    rw [update_expr]
    exact pyReplace_eq_join (by decide) _
  · intro e
    rw [update_expr]
    have h5 : S "[5m]" = '[' :: S "5m]" := rfl
    have hi : S "[$interval]" = '[' :: S "$interval]" := rfl
    rw [h5, hi]
    exact pyReplace_no_pat '[' (S "5m]") (S "$interval]")
      (by decide) (by decide) (by decide) (inject_filters e)

/-! ### Case analyses of the per-target and per-panel updates -/

/-- All ways `update_target` can succeed. -/
theorem update_target_cases {t t' : Json} (h : update_target t = .ok t') :
    (∃ fields e, t = .obj fields ∧
      objGet fields (S "expr") = some (.str e) ∧
      (((objGet (objSet fields (S "expr") (.str (update_expr e)))
            (S "refId")).isSome = true ∧
          t' = .obj (objSet fields (S "expr") (.str (update_expr e)))) ∨
        ((objGet (objSet fields (S "expr") (.str (update_expr e)))
            (S "refId")).isSome = false ∧
          t' = .obj (objSet (objSet fields (S "expr") (.str (update_expr e)))
            (S "refId") (.str (S "A")))))) ∨
    (t' = t ∧
      ((∃ fields, t = .obj fields ∧ objGet fields (S "expr") = none) ∨
        (∃ cs, t = .str cs ∧ inf_of (S "expr") cs = false) ∨
        (∃ xs, t = .arr xs ∧
          xs.any (fun x => match x with
            | .str s => s == S "expr" | _ => false) = false))) := by
  cases t with
  | null => cases h
  | bool b => cases h
  | num n => cases h
  | str cs =>
    rw [update_target] at h
    by_cases hin : inf_of (S "expr") cs = true
    · rw [if_pos hin] at h
      cases h
    · have hinf : inf_of (S "expr") cs = false := by
        cases hq : inf_of (S "expr") cs with
        | false => rfl
        | true => exact absurd hq hin
      rw [if_neg hin] at h
      obtain rfl : Json.str cs = t' := by injection h
      exact Or.inr ⟨rfl, Or.inr (Or.inl ⟨cs, rfl, hinf⟩)⟩
  | arr xs =>
    rw [update_target] at h
    by_cases hin : xs.any (fun x => match x with
        | .str s => s == S "expr" | _ => false) = true
    · rw [if_pos hin] at h
      cases h
    · have hinf : xs.any (fun x => match x with
          | .str s => s == S "expr" | _ => false) = false := by
        cases hq : xs.any (fun x => match x with
            | .str s => s == S "expr" | _ => false) with
        | false => rfl
        | true => exact absurd hq hin
      rw [if_neg hin] at h
      obtain rfl : Json.arr xs = t' := by injection h
      exact Or.inr ⟨rfl, Or.inr (Or.inr ⟨xs, rfl, hinf⟩)⟩
  | obj fields =>
    rw [update_target] at h
    cases hexpr : objGet fields (S "expr") with
    | none =>
      rw [hexpr] at h
      obtain rfl : Json.obj fields = t' := by injection h
      exact Or.inr ⟨rfl, Or.inl ⟨fields, rfl, hexpr⟩⟩
    | some v =>
      rw [hexpr] at h
      cases v with
      | str e =>
        dsimp only [] at h
        by_cases hrid : (objGet (objSet fields (S "expr")
            (.str (update_expr e))) (S "refId")).isSome = true
        · rw [if_pos hrid] at h
          obtain rfl := by injection h
          exact Or.inl ⟨fields, e, rfl, hexpr, Or.inl ⟨hrid, rfl⟩⟩
        · have hrid' : (objGet (objSet fields (S "expr")
              (.str (update_expr e))) (S "refId")).isSome = false := by
            cases hq : (objGet (objSet fields (S "expr")
                (.str (update_expr e))) (S "refId")).isSome with
            | false => rfl
            | true => exact absurd hq hrid
          rw [if_neg hrid] at h
          obtain rfl := by injection h
          exact Or.inl ⟨fields, e, rfl, hexpr, Or.inr ⟨hrid', rfl⟩⟩
      | null => cases h
      | bool b => cases h
      | num n => cases h
      | arr ys => cases h
      | obj fs => cases h

/-- All ways `update_panel` can succeed on a dict panel: a `fields1`
(after the optional targets update) and the description branch. -/
theorem update_panel_cases {p p' : Json} (h : update_panel p = .ok p') :
    ∃ fields fields1, p = .obj fields ∧
      ((objGet fields (S "targets") = none ∧ fields1 = fields) ∨
        (∃ tv tv2, objGet fields (S "targets") = some tv ∧
          update_targets_val tv = .ok tv2 ∧
          fields1 = objSet fields (S "targets") tv2)) ∧
      (((objGet fields1 (S "description") = none ∨
          (∃ dv, objGet fields1 (S "description") = some dv ∧
            pyTruthy dv = false)) ∧
          p' = .obj (objSet fields1 (S "description")
            (.str (panel_desc fields1)))) ∨
        (∃ dv, objGet fields1 (S "description") = some dv ∧
          pyTruthy dv = true ∧ p' = .obj fields1)) := by
  cases p with
  | null => cases h
  | bool b => cases h
  | num n => cases h
  | str cs => cases h
  | arr xs => cases h
  | obj fields =>
    rw [update_panel] at h
    refine ⟨fields, ?_⟩
    cases htv : objGet fields (S "targets") with
    | none =>
      rw [htv] at h
      dsimp only [] at h
      refine ⟨fields, rfl, Or.inl ⟨rfl, rfl⟩, ?_⟩
      cases hdesc : objGet fields (S "description") with
      | none =>
        rw [hdesc] at h
        obtain rfl := by injection h
        exact Or.inl ⟨Or.inl rfl, rfl⟩
      | some dv =>
        rw [hdesc] at h
        dsimp only [] at h
        by_cases htr : pyTruthy dv = true
        · rw [if_pos htr] at h
          obtain rfl := by injection h
          exact Or.inr ⟨dv, rfl, htr, rfl⟩
        · have htr' : pyTruthy dv = false := by
            cases hq : pyTruthy dv with
            | false => rfl
            | true => exact absurd hq htr
          rw [if_neg htr] at h
          obtain rfl := by injection h
          exact Or.inl ⟨Or.inr ⟨dv, rfl, htr'⟩, rfl⟩
    | some tv =>
      rw [htv] at h
      dsimp only [] at h
      cases hupd : update_targets_val tv with
      | error e =>
        rw [hupd] at h
        cases h
      | ok tv2 =>
        rw [hupd] at h
        dsimp only [] at h
        refine ⟨objSet fields (S "targets") tv2, rfl,
          Or.inr ⟨tv, tv2, rfl, hupd, rfl⟩, ?_⟩
        cases hdesc : objGet (objSet fields (S "targets") tv2)
            (S "description") with
        | none =>
          rw [hdesc] at h
          obtain rfl := by injection h
          exact Or.inl ⟨Or.inl rfl, rfl⟩
        | some dv =>
          rw [hdesc] at h
          dsimp only [] at h
          by_cases htr : pyTruthy dv = true
          · rw [if_pos htr] at h
            obtain rfl := by injection h
            exact Or.inr ⟨dv, rfl, htr, rfl⟩
          · have htr' : pyTruthy dv = false := by
              cases hq : pyTruthy dv with
              | false => rfl
              | true => exact absurd hq htr
            rw [if_neg htr] at h
            obtain rfl := by injection h
            exact Or.inl ⟨Or.inr ⟨dv, rfl, htr'⟩, rfl⟩

/-- All ways the targets-value update can succeed. -/
theorem update_targets_val_cases {v v' : Json}
    (h : update_targets_val v = .ok v') :
    (∃ xs ys, v = .arr xs ∧ mapE update_target xs = .ok ys ∧ v' = .arr ys) ∨
    (v' = v ∧ ((∃ cs, v = .str cs) ∨
      (∃ fields, v = .obj fields ∧
        fields.any (fun kv => inf_of (S "expr") kv.1) = false))) := by
  cases v with
  | null => cases h
  | bool b => cases h
  | num n => cases h
  | str cs =>
    rw [update_targets_val] at h
    obtain rfl := by injection h
    exact Or.inr ⟨rfl, Or.inl ⟨cs, rfl⟩⟩
  | arr xs =>
    rw [update_targets_val] at h
    cases hmap : mapE update_target xs with
    | error e => rw [hmap] at h; cases h
    | ok ys =>
      rw [hmap] at h
      obtain rfl := by injection h
      exact Or.inl ⟨xs, ys, rfl, hmap, rfl⟩
  | obj fields =>
    rw [update_targets_val] at h
    by_cases hany : fields.any (fun kv => inf_of (S "expr") kv.1) = true
    · rw [if_pos hany] at h
      cases h
    · have hany' : fields.any (fun kv => inf_of (S "expr") kv.1) = false := by
        cases hq : fields.any (fun kv => inf_of (S "expr") kv.1) with
        | false => rfl
        | true => exact absurd hq hany
      rw [if_neg hany] at h
      obtain rfl := by injection h
      exact Or.inr ⟨rfl, Or.inr ⟨fields, rfl, hany'⟩⟩

/-- All ways the panels-value update can succeed. -/
theorem update_panels_val_cases {v v' : Json}
    (h : update_panels_val v = .ok v') :
    (∃ xs ys, v = .arr xs ∧ mapE update_panel xs = .ok ys ∧ v' = .arr ys) ∨
    (v' = v ∧ (v = .str [] ∨ v = .obj [])) := by
  cases v with
  | null => cases h
  | bool b => cases h
  | num n => cases h
  | str cs =>
    cases cs with
    | nil =>
      rw [update_panels_val] at h
      obtain rfl := by injection h
      exact Or.inr ⟨rfl, Or.inl rfl⟩
    | cons c cs' => cases h
  | arr xs =>
    rw [update_panels_val] at h
    cases hmap : mapE update_panel xs with
    | error e => rw [hmap] at h; cases h
    | ok ys =>
      rw [hmap] at h
      obtain rfl := by injection h
      exact Or.inl ⟨xs, ys, rfl, hmap, rfl⟩
  | obj fields =>
    cases fields with
    | nil =>
      rw [update_panels_val] at h
      obtain rfl := by injection h
      exact Or.inr ⟨rfl, Or.inr rfl⟩
    | cons kv fs => cases h

theorem panel_desc_objSet_desc (f : List (List Char × Json)) (v : Json) :
    panel_desc (objSet f (S "description") v) = panel_desc f := by
  rw [panel_desc, panel_desc, objGet_objSet_ne _ _ (by decide),
    objGet_objSet_ne _ _ (by decide)]

theorem panel_desc_truthy (f : List (List Char × Json)) :
    pyTruthy (.str (panel_desc f)) = true := rfl

/-! ### Claim C10: refId defaulting and descriptions -/

/-- C10: after a successful panel update, the panel's description is
present and truthy — panels whose description was missing or falsy
receive `Panel <id>: <title>` (with `No title` when the panel has no
title, and an empty id part when it has no id) — and inside an updated
targets list, every dict target carrying an `expr` has a `refId`, set to
`"A"` exactly when it was absent (so distinct targets may share `"A"`). -/
theorem claim_C10 : ∀ (p p' : Json) (fields : List (List Char × Json)),
    update_panel p = .ok p' → p = .obj fields →
    ∃ fields', p' = .obj fields' ∧
      (∃ dv, objGet fields' (S "description") = some dv ∧
        pyTruthy dv = true) ∧
      ((objGet fields (S "description") = none ∨
        (∃ dv0, objGet fields (S "description") = some dv0 ∧
          pyTruthy dv0 = false)) →
        objGet fields' (S "description") = some (.str (panel_desc fields'))) ∧
      (∀ f : List (List Char × Json), objGet f (S "id") = none →
        objGet f (S "title") = none →
        panel_desc f = S "Panel : No title") ∧
      (∀ ts ts', objGet fields (S "targets") = some (.arr ts) →
        objGet fields' (S "targets") = some (.arr ts') →
        ts'.length = ts.length ∧
        ∀ j (hj : j < ts.length) (hj' : j < ts'.length)
          (tf : List (List Char × Json)),
          ts.get ⟨j, hj⟩ = .obj tf →
          (objGet tf (S "expr")).isSome = true →
          ∃ tf' e, ts'.get ⟨j, hj'⟩ = .obj tf' ∧
            objGet tf (S "expr") = some (.str e) ∧
            (objGet tf' (S "refId")).isSome = true ∧
            (objGet tf (S "refId") = none →
              objGet tf' (S "refId") = some (.str (S "A")))) := by
  intro p p' fields h hp
  subst hp
  obtain ⟨fields0, fields1, heq0, htb, hdb⟩ := update_panel_cases h
  obtain rfl : fields = fields0 := by injection heq0
  have hdesc_same : objGet fields1 (S "description") =
      objGet fields (S "description") := by
    rcases htb with ⟨_, rfl⟩ | ⟨tv, tv2, _, _, rfl⟩
    · rfl
    · exact objGet_objSet_ne _ _ (by decide)
  have htargets1 : ∀ ts, objGet fields (S "targets") = some (.arr ts) →
      ∃ ys, mapE update_target ts = .ok ys ∧
        objGet fields1 (S "targets") = some (.arr ys) := by
    intro ts hts
    rcases htb with ⟨hnone, rfl⟩ | ⟨tv, tv2, htv, hupd, rfl⟩
    · rw [hts] at hnone
      cases hnone
    · rw [hts] at htv
      obtain rfl : tv = .arr ts := by injection htv with h'; exact h'.symm
      rcases update_targets_val_cases hupd with
        ⟨xs, ys, hxs, hmap, rfl⟩ | ⟨_, ⟨cs, hcs⟩ | ⟨fs, hfs, _⟩⟩
      · obtain rfl : ts = xs := by injection hxs
        exact ⟨ys, hmap, objGet_objSet_same _ _ _⟩
      · cases hcs
      · cases hfs
  have hrefid : ∀ (fields' : List (List Char × Json)),
      objGet fields' (S "targets") = objGet fields1 (S "targets") →
      ∀ ts ts', objGet fields (S "targets") = some (.arr ts) →
        objGet fields' (S "targets") = some (.arr ts') →
        ts'.length = ts.length ∧
        ∀ j (hj : j < ts.length) (hj' : j < ts'.length)
          (tf : List (List Char × Json)),
          ts.get ⟨j, hj⟩ = .obj tf →
          (objGet tf (S "expr")).isSome = true →
          ∃ tf' e, ts'.get ⟨j, hj'⟩ = .obj tf' ∧
            objGet tf (S "expr") = some (.str e) ∧
            (objGet tf' (S "refId")).isSome = true ∧
            (objGet tf (S "refId") = none →
              objGet tf' (S "refId") = some (.str (S "A"))) := by
    intro fields' hsame ts ts' hts hts'
    obtain ⟨ys, hmap, hys⟩ := htargets1 ts hts
    rw [hsame, hys] at hts'
    obtain rfl : ys = ts' := by
      injection hts' with h2
      injection h2
    refine ⟨by rw [mapE_ok_length hmap], ?_⟩
    intro j hj hj' tf htf hsome
    have hone := mapE_ok_get hmap j hj hj'
    rw [htf] at hone
    rcases update_target_cases hone with
      ⟨tfields, e, heqt, hexpr, hbr⟩ | ⟨_, hcases⟩
    · obtain rfl : tf = tfields := by injection heqt
      rcases hbr with ⟨hrid, hval⟩ | ⟨hrid, hval⟩
      · refine ⟨objSet tf (S "expr") (.str (update_expr e)), e, hval, hexpr,
          hrid, ?_⟩
        intro hnone
        rw [objGet_objSet_ne _ _ (by decide), hnone] at hrid
        cases hrid
      · refine ⟨objSet (objSet tf (S "expr") (.str (update_expr e)))
          (S "refId") (.str (S "A")), e, hval, hexpr, ?_, ?_⟩
        · rw [objGet_objSet_same]
          rfl
        · intro _
          rw [objGet_objSet_same]
    · rcases hcases with ⟨fs, heqt, hnone⟩ | ⟨cs, heqt, _⟩ | ⟨xs, heqt, _⟩
      · obtain rfl : tf = fs := by injection heqt
        rw [hnone] at hsome
        cases hsome
      · cases heqt
      · cases heqt
  have hnotitle : ∀ f : List (List Char × Json), objGet f (S "id") = none →
      objGet f (S "title") = none →
      panel_desc f = S "Panel : No title" := by
    intro f hid htitle
    rw [panel_desc, hid, htitle]
    decide
  rcases hdb with ⟨hcond, rfl⟩ | ⟨dv, hdv, htr, rfl⟩
  · refine ⟨objSet fields1 (S "description") (.str (panel_desc fields1)),
      rfl, ?_, ?_, hnotitle, ?_⟩
    · exact ⟨.str (panel_desc fields1), objGet_objSet_same _ _ _,
        panel_desc_truthy fields1⟩
    · intro _
      rw [objGet_objSet_same, panel_desc_objSet_desc]
    · exact hrefid _ (objGet_objSet_ne _ _ (by decide))
  · refine ⟨fields1, rfl, ⟨dv, hdv, htr⟩, ?_, hnotitle, hrefid _ rfl⟩
    intro hcond
    rw [hdesc_same] at hdv
    rcases hcond with hnone | ⟨dv0, hdv0, hfalse⟩
    · rw [hnone] at hdv
      cases hdv
    · rw [hdv0] at hdv
      obtain rfl : dv0 = dv := by injection hdv
      rw [htr] at hfalse
      cases hfalse

/-- Field list of a concrete panel exercising both the refId defaulting
and the description substitution. -/
def sample_panel_fields : List (List Char × Json) :=
  [(S "id", .num 2),
   (S "title", .str (S "Latency")),
   (S "targets", .arr [
     .obj [(S "expr", .str (S "birthday_scheduler_latency[5m]"))]])]

theorem claim_C10_witness :
    ∃ fields', exOut (update_panel (.obj sample_panel_fields)) = .obj fields' ∧
      (∃ dv, objGet fields' (S "description") = some dv ∧
        pyTruthy dv = true) ∧
      ((objGet sample_panel_fields (S "description") = none ∨
        (∃ dv0, objGet sample_panel_fields (S "description") = some dv0 ∧
          pyTruthy dv0 = false)) →
        objGet fields' (S "description") = some (.str (panel_desc fields'))) ∧
      (∀ f : List (List Char × Json), objGet f (S "id") = none →
        objGet f (S "title") = none →
        panel_desc f = S "Panel : No title") ∧
      (∀ ts ts', objGet sample_panel_fields (S "targets") = some (.arr ts) →
        objGet fields' (S "targets") = some (.arr ts') →
        ts'.length = ts.length ∧
        ∀ j (hj : j < ts.length) (hj' : j < ts'.length)
          (tf : List (List Char × Json)),
          ts.get ⟨j, hj⟩ = .obj tf →
          (objGet tf (S "expr")).isSome = true →
          ∃ tf' e, ts'.get ⟨j, hj'⟩ = .obj tf' ∧
            objGet tf (S "expr") = some (.str e) ∧
            (objGet tf' (S "refId")).isSome = true ∧
            (objGet tf (S "refId") = none →
              objGet tf' (S "refId") = some (.str (S "A")))) :=
  claim_C10 (.obj sample_panel_fields)
    (exOut (update_panel (.obj sample_panel_fields)))
    sample_panel_fields rfl rfl

/-! ### Claim C8: frame conditions -/

theorem update_target_frame {t t' : Json} (h : update_target t = .ok t') :
    ∀ k, k ≠ S "expr" → k ≠ S "refId" → jGet t' k = jGet t k := by
  rcases update_target_cases h with ⟨fields, e, rfl, hexpr, hbr⟩ | ⟨rfl, _⟩
  · rcases hbr with ⟨_, rfl⟩ | ⟨_, rfl⟩
    · intro k hk1 hk2
      rw [jGet, jGet, objGet_objSet_ne _ _ hk1]
    · intro k hk1 hk2
      rw [jGet, jGet, objGet_objSet_ne _ _ hk2, objGet_objSet_ne _ _ hk1]
  · intro k _ _
    rfl

theorem update_panel_frame {p p' : Json} (h : update_panel p = .ok p') :
    (∀ k, k ≠ S "targets" → k ≠ S "description" → jGet p' k = jGet p k) ∧
    (∀ ts, jGet p (S "targets") = some (.arr ts) →
      ∃ ts', jGet p' (S "targets") = some (.arr ts') ∧
        ts'.length = ts.length ∧
        ∀ j (hj : j < ts.length) (hj' : j < ts'.length),
          ∀ k, k ≠ S "expr" → k ≠ S "refId" →
            jGet (ts'.get ⟨j, hj'⟩) k = jGet (ts.get ⟨j, hj⟩) k) := by
  obtain ⟨fields, fields1, rfl, htb, hdb⟩ := update_panel_cases h
  have hfields1_other : ∀ k, k ≠ S "targets" →
      objGet fields1 k = objGet fields k := by
    intro k hk
    rcases htb with ⟨_, rfl⟩ | ⟨tv, tv2, _, _, rfl⟩
    · rfl
    · exact objGet_objSet_ne _ _ hk
  have hout_other : ∀ k, k ≠ S "description" →
      jGet p' k = objGet fields1 k := by
    intro k hk
    rcases hdb with ⟨_, rfl⟩ | ⟨dv, _, _, rfl⟩
    · rw [jGet, objGet_objSet_ne _ _ hk]
    · rfl
  constructor
  · intro k hk1 hk2
    rw [hout_other k hk2, hfields1_other k hk1]
    rfl
  · intro ts hts
    rw [jGet] at hts
    rcases htb with ⟨hnone, _⟩ | ⟨tv, tv2, htv, hupd, htf1⟩
    · rw [hts] at hnone
      cases hnone
    · rw [hts] at htv
      obtain rfl : tv = .arr ts := by injection htv with h'; exact h'.symm
      rcases update_targets_val_cases hupd with
        ⟨xs, ys, hxs, hmap, rfl⟩ | ⟨_, ⟨cs, hcs⟩ | ⟨fs, hfs, _⟩⟩
      · obtain rfl : ts = xs := by injection hxs
        refine ⟨ys, ?_, mapE_ok_length hmap, ?_⟩
        · rw [hout_other _ (by decide), htf1, objGet_objSet_same]
        · intro j hj hj' k hk1 hk2
          exact update_target_frame (mapE_ok_get hmap j hj hj') k hk1 hk2
      · cases hcs
      · cases hfs

/-- C8: a successful run leaves every top-level key other than
`dashboard` unchanged; inside the dashboard it changes only `templating`,
`links`, `annotations` and the contents of `panels`; inside each panel it
changes only `targets` and `description`; and inside each target it
changes only `expr` and `refId`. -/
theorem claim_C8 : ∀ (doc : Json) (cfg : DashConfig) (out : Json),
    enhance_dashboard doc cfg = .ok out →
    (∀ k, k ≠ S "dashboard" → jGet out k = jGet doc k) ∧
    (∀ k, k ≠ S "templating" → k ≠ S "links" → k ≠ S "annotations" →
      k ≠ S "panels" → jGet (dash_of out) k = jGet (dash_of doc) k) ∧
    (∀ ps, jGet (dash_of doc) (S "panels") = some (.arr ps) →
      ∃ ps', jGet (dash_of out) (S "panels") = some (.arr ps') ∧
        ps'.length = ps.length ∧
        ∀ i (hi : i < ps.length) (hi' : i < ps'.length),
          (∀ k, k ≠ S "targets" → k ≠ S "description" →
            jGet (ps'.get ⟨i, hi'⟩) k = jGet (ps.get ⟨i, hi⟩) k) ∧
          (∀ ts, jGet (ps.get ⟨i, hi⟩) (S "targets") = some (.arr ts) →
            ∃ ts', jGet (ps'.get ⟨i, hi'⟩) (S "targets") = some (.arr ts') ∧
              ts'.length = ts.length ∧
              ∀ j (hj : j < ts.length) (hj' : j < ts'.length),
                ∀ k, k ≠ S "expr" → k ≠ S "refId" →
                  jGet (ts'.get ⟨j, hj'⟩) k = jGet (ts.get ⟨j, hj⟩) k)) := by
  intro doc cfg out h
  obtain ⟨dfields, dashFields, rfl, hdash, hbr⟩ := enhance_ok_iff.mp h
  have hdashof_doc : dash_of (.obj dfields) = .obj dashFields := by
    rw [dash_of, jGet]
    exact hdash
  refine ⟨?_, ?_, ?_⟩
  · intro k hk
    rcases hbr with ⟨_, rfl⟩ | ⟨pv, pv2, _, _, rfl⟩ <;>
      rw [jGet, jGet, objGet_objSet_ne _ _ hk]
  · intro k h1 h2 h3 h4
    rcases hbr with ⟨_, rfl⟩ | ⟨pv, pv2, _, _, rfl⟩
    · have hdo : dash_of (Json.obj (objSet dfields (S "dashboard")
          (Json.obj (dash_fields3 dashFields cfg)))) =
          Json.obj (dash_fields3 dashFields cfg) := by
        rw [dash_of, jGet, objGet_objSet_same]
        rfl
      rw [hdo, hdashof_doc, jGet, jGet]
      exact dash_fields3_other dashFields cfg h1 h2 h3
    · have hdo : dash_of (Json.obj (objSet dfields (S "dashboard")
          (Json.obj (objSet (dash_fields3 dashFields cfg) (S "panels") pv2)))) =
          Json.obj (objSet (dash_fields3 dashFields cfg) (S "panels") pv2) := by
        rw [dash_of, jGet, objGet_objSet_same]
        rfl
      rw [hdo, hdashof_doc, jGet, jGet, objGet_objSet_ne _ _ h4]
      exact dash_fields3_other dashFields cfg h1 h2 h3
  · intro ps hps
    rw [hdashof_doc, jGet] at hps
    have hps3 : objGet (dash_fields3 dashFields cfg) (S "panels") =
        some (.arr ps) := by
      rw [dash_fields3_other dashFields cfg (by decide) (by decide) (by decide)]
      exact hps
    rcases hbr with ⟨hnone, _⟩ | ⟨pv, pv2, hsome, hupd, rfl⟩
    · rw [hps3] at hnone
      cases hnone
    · rw [hps3] at hsome
      obtain rfl : pv = .arr ps := by injection hsome with h'; exact h'.symm
      rcases update_panels_val_cases hupd with
        ⟨xs, ys, hxs, hmap, rfl⟩ | ⟨_, hcs | hcs⟩
      · obtain rfl : ps = xs := by injection hxs
        refine ⟨ys, ?_, mapE_ok_length hmap, ?_⟩
        · rw [dash_of, jGet, objGet_objSet_same]
          show objGet _ (S "panels") = _
          rw [objGet_objSet_same]
        · intro i hi hi'
          exact update_panel_frame (mapE_ok_get hmap i hi hi')
      · cases hcs
      · cases hcs

theorem claim_C8_witness :
    (∀ k, k ≠ S "dashboard" →
      jGet (exOut (enhance_dashboard sample_panel_doc infrastructure_config)) k =
        jGet sample_panel_doc k) ∧
    (∀ k, k ≠ S "templating" → k ≠ S "links" → k ≠ S "annotations" →
      k ≠ S "panels" →
      jGet (dash_of (exOut (enhance_dashboard sample_panel_doc
        infrastructure_config))) k = jGet (dash_of sample_panel_doc) k) ∧
    (∀ ps, jGet (dash_of sample_panel_doc) (S "panels") = some (.arr ps) →
      ∃ ps', jGet (dash_of (exOut (enhance_dashboard sample_panel_doc
          infrastructure_config))) (S "panels") = some (.arr ps') ∧
        ps'.length = ps.length ∧
        ∀ i (hi : i < ps.length) (hi' : i < ps'.length),
          (∀ k, k ≠ S "targets" → k ≠ S "description" →
            jGet (ps'.get ⟨i, hi'⟩) k = jGet (ps.get ⟨i, hi⟩) k) ∧
          (∀ ts, jGet (ps.get ⟨i, hi⟩) (S "targets") = some (.arr ts) →
            ∃ ts', jGet (ps'.get ⟨i, hi'⟩) (S "targets") = some (.arr ts') ∧
              ts'.length = ts.length ∧
              ∀ j (hj : j < ts.length) (hj' : j < ts'.length),
                ∀ k, k ≠ S "expr" → k ≠ S "refId" →
                  jGet (ts'.get ⟨j, hj'⟩) k = jGet (ts.get ⟨j, hj⟩) k)) :=
  claim_C8 sample_panel_doc infrastructure_config
    (exOut (enhance_dashboard sample_panel_doc infrastructure_config)) rfl

/-! ### Claim C9: idempotence.  String-level lemmas first. -/

theorem p5_cons : S "[5m]" = '[' :: S "5m]" := rfl

theorem rint_cons : S "[$interval]" = '[' :: S "$interval]" := rfl

/-- Occurrences of `namespace=` survive the window replacement. -/
theorem ns_preserved (l : List Char)
    (hl : inf_of (S "namespace=") l = true) :
    inf_of (S "namespace=")
      (pyReplace l (S "[5m]") (S "[$interval]")) = true := by
  rw [p5_cons, rint_cons]
  exact inf_of_pyReplace_of_inf '[' (S "5m]") (S "$interval]")
    (S "namespace=") (by decide) (by decide) (by decide) l hl

/-- Occurrences of `birthday_scheduler_` in the output of the window
replacement already occur in its input. -/
theorem bs_reflected (l : List Char)
    (hl : inf_of (S "birthday_scheduler_")
      (pyReplace l (S "[5m]") (S "[$interval]")) = true) :
    inf_of (S "birthday_scheduler_") l = true := by
  rw [p5_cons, rint_cons] at hl
  exact inf_of_of_inf_pyReplace '[' (S "5m]") (S "$interval]")
    (S "birthday_scheduler_") (by decide) (by decide) (by decide) l hl

/-- No `[5m]` remains after the window replacement. -/
theorem no_5m_after (l : List Char) :
    inf_of (S "[5m]") (pyReplace l (S "[5m]") (S "[$interval]")) = false := by
  rw [p5_cons, rint_cons]
  exact pyReplace_no_pat '[' (S "5m]") (S "$interval]")
    (by decide) (by decide) (by decide) l

theorem inf_rep_pyReplace_nil (l rep : List Char) :
    inf_of rep (pyReplace l [] rep) = true := by
  rw [pyReplace, if_pos rfl]
  cases l with
  | nil => exact inf_of_refl rep
  | cons c cs =>
    rw [List.foldr_cons]
    exact inf_of_append_left _ (inf_of_refl rep)

theorem headD_mem {xs : List (List Char)} (d : List Char) (h : xs ≠ []) :
    headD xs d ∈ xs := by
  cases xs with
  | nil => exact absurd rfl h
  | cons x t => exact List.mem_cons_self x t

/-- The token the no-brace branch replaces is a substring of the
expression, so the replacement really fires and the label set (hence
`namespace=`) lands in the output. -/
theorem metric_name_inf (e : List Char) :
    inf_of (pyStrip (lastD (pySplit (headD (pySplit e (S "[")) [])
      (S "(")) [])) e = true := by
  have hh : inf_of (headD (pySplit e (S "[")) []) e = true :=
    pySplit_mem_inf (by decide) e _ (headD_mem [] (pySplit_ne_nil _ _))
  have hl : inf_of (lastD (pySplit (headD (pySplit e (S "[")) []) (S "(")) [])
      (headD (pySplit e (S "[")) []) = true :=
    pySplit_mem_inf (by decide) _ _ (lastD_mem [] (pySplit_ne_nil _ _))
  exact inf_of_trans (inf_of_trans (pyStrip_inf _) hl) hh

/-- The no-brace injection inserts the label set, so the output contains
`namespace=`. -/
theorem inject_nobrace_ns (e : List Char) :
    inf_of (S "namespace=") (inject_nobrace e) = true := by
  rw [inject_nobrace]
  dsimp only []
  rw [if_pos (List.length_pos.mpr (pySplit_ne_nil _ _))]
  by_cases hmn : pyStrip (lastD (pySplit (headD (pySplit e (S "[")) [])
      (S "(")) []) = []
  · rw [hmn]
    refine inf_of_trans (by decide) (inf_rep_pyReplace_nil e _)
  · refine inf_of_trans (show inf_of (S "namespace=")
      (pyStrip (lastD (pySplit (headD (pySplit e (S "[")) []) (S "(")) []) ++
        (braceC :: (label_pair ++ [rbraceC]))) = true from ?_) ?_
    · exact inf_of_append_right _ (by decide)
    · exact pyReplace_inf_rep hmn (metric_name_inf e)

/-- When the injection runs (no `namespace=`, mentions
`birthday_scheduler_`), its output contains `namespace=`. -/
theorem inject_contains_ns (e : List Char)
    (hns : inf_of (S "namespace=") e = false)
    (hbs : inf_of (S "birthday_scheduler_") e = true) :
    inf_of (S "namespace=") (inject_filters e) = true := by
  rw [inject_filters, if_pos (by rw [hns, hbs]; rfl)]
  dsimp only []
  rw [pyReplace1_self]
  by_cases hbr : inf_of [braceC] e = true
  · have hrep : inf_of (braceC :: (label_pair ++ S ", "))
        (pyReplace1 e [braceC] (braceC :: (label_pair ++ S ", "))) = true :=
      pyReplace1_inf_rep (by simp) hbr
    have hbr2 : inf_of [braceC]
        (pyReplace1 e [braceC] (braceC :: (label_pair ++ S ", "))) = true :=
      inf_of_trans (by decide) hrep
    rw [hbr2]
    exact inf_of_trans (by decide) hrep
  · have hbrf : inf_of [braceC] e = false := by
      cases hq : inf_of [braceC] e with
      | false => rfl
      | true => exact absurd hq hbr
    rw [pyReplace1_not_inf hbrf, hbrf]
    rw [if_pos (show ((!false) = true) by simp)]
    exact inject_nobrace_ns e

/-- The per-expression rewrite of `update_panel_queries` is idempotent. -/
theorem update_expr_idem (e : List Char) :
    update_expr (update_expr e) = update_expr e := by
  have hskip : inject_filters (update_expr e) = update_expr e := by
    rw [inject_filters]
    by_cases hc : (!(inf_of (S "namespace=") e) &&
        inf_of (S "birthday_scheduler_") e) = true
    · -- the first run injected, so the output contains `namespace=`
      have h1 : inf_of (S "namespace=") (inject_filters e) = true := by
        rw [Bool.and_eq_true, Bool.not_eq_true'] at hc
        exact inject_contains_ns e hc.1 hc.2
      have h2 : inf_of (S "namespace=") (update_expr e) = true := by
        rw [update_expr]
        exact ns_preserved _ h1
      rw [h2]
      rfl
    · -- the first run skipped the injection
      have hcf : (!(inf_of (S "namespace=") e) &&
          inf_of (S "birthday_scheduler_") e) = false := by
        cases hq : (!(inf_of (S "namespace=") e) &&
            inf_of (S "birthday_scheduler_") e) with
        | false => rfl
        | true => exact absurd hq hc
      have hinj : inject_filters e = e := by
        rw [inject_filters, hcf]
        rfl
      rw [Bool.and_eq_false_iff] at hcf
      rcases hcf with hns | hbs
      · rw [Bool.not_eq_false'] at hns
        have h2 : inf_of (S "namespace=") (update_expr e) = true := by
          rw [update_expr, hinj]
          exact ns_preserved _ hns
        rw [h2]
        rfl
      · have h2 : inf_of (S "birthday_scheduler_") (update_expr e) = false := by
          cases hq : inf_of (S "birthday_scheduler_") (update_expr e) with
          | false => rfl
          | true =>
            rw [update_expr, hinj] at hq
            rw [bs_reflected e hq] at hbs
            cases hbs
        rw [h2, Bool.and_false]
        rfl
  rw [update_expr, hskip]
  show pyReplace (update_expr e) (S "[5m]") (S "[$interval]") = update_expr e
  apply pyReplace_not_inf
  rw [update_expr]
  exact no_5m_after _

theorem update_target_idem {t t' : Json} (h : update_target t = .ok t') :
    update_target t' = .ok t' := by
  rcases update_target_cases h with ⟨fields, e, rfl, hexpr, hbr⟩ | ⟨rfl, hcases⟩
  · rcases hbr with ⟨hrid, rfl⟩ | ⟨hrid, rfl⟩
    · rw [update_target, objGet_objSet_same]
      dsimp only []
      rw [update_expr_idem, objSet_objSet_same, if_pos hrid]
    · rw [update_target, objGet_objSet_ne _ _ (by decide), objGet_objSet_same]
      dsimp only []
      rw [update_expr_idem]
      have hset : objSet (objSet (objSet fields (S "expr")
          (.str (update_expr e))) (S "refId") (.str (S "A"))) (S "expr")
          (.str (update_expr e)) =
          objSet (objSet fields (S "expr") (.str (update_expr e)))
            (S "refId") (.str (S "A")) := by
        apply objSet_same
        rw [objGet_objSet_ne _ _ (by decide), objGet_objSet_same]
      rw [hset]
      rw [if_pos (by rw [objGet_objSet_same]; rfl)]
  · rcases hcases with ⟨fields, rfl, hnone⟩ | ⟨cs, rfl, hinf⟩ | ⟨xs, rfl, hany⟩
    · rw [update_target, hnone]
    · rw [update_target, if_neg (by rw [hinf]; simp)]
    · rw [update_target, if_neg (by rw [hany]; simp)]

theorem update_targets_val_idem {v v' : Json}
    (h : update_targets_val v = .ok v') : update_targets_val v' = .ok v' := by
  rcases update_targets_val_cases h with ⟨xs, ys, rfl, hmap, rfl⟩ | ⟨rfl, hcs⟩
  · rw [update_targets_val,
      mapE_idem (fun x y hxy => update_target_idem hxy) hmap]
  · rcases hcs with ⟨cs, rfl⟩ | ⟨fields, rfl, hany⟩
    · rfl
    · rw [update_targets_val, if_neg (by rw [hany]; simp)]

theorem update_panel_idem {p p' : Json} (h : update_panel p = .ok p') :
    update_panel p' = .ok p' := by
  obtain ⟨fields, fields1, rfl, htb, hdb⟩ := update_panel_cases h
  -- the targets of `fields1` are already fully updated
  have htv1 : objGet fields1 (S "targets") = none ∨
      ∃ tv2, objGet fields1 (S "targets") = some tv2 ∧
        update_targets_val tv2 = .ok tv2 := by
    rcases htb with ⟨hnone, rfl⟩ | ⟨tv, tv2, htv, hupd, rfl⟩
    · exact Or.inl hnone
    · exact Or.inr ⟨tv2, objGet_objSet_same _ _ _,
        update_targets_val_idem hupd⟩
  -- the final field list and the truthiness of its description
  obtain ⟨fields', hp', hdesc, htveq⟩ :
      ∃ fields', p' = .obj fields' ∧
        (∃ dv, objGet fields' (S "description") = some dv ∧
          pyTruthy dv = true) ∧
        objGet fields' (S "targets") = objGet fields1 (S "targets") := by
    rcases hdb with ⟨hcond, rfl⟩ | ⟨dv, hdv, htr, rfl⟩
    · exact ⟨objSet fields1 (S "description") (.str (panel_desc fields1)),
        rfl, ⟨.str (panel_desc fields1), objGet_objSet_same _ _ _, rfl⟩,
        objGet_objSet_ne _ _ (by decide)⟩
    · exact ⟨fields1, rfl, ⟨dv, hdv, htr⟩, rfl⟩
  subst hp'
  obtain ⟨dv, hdv, htr⟩ := hdesc
  rw [update_panel]
  rcases htv1 with hnone | ⟨tv2, hsome, hidem⟩
  · rw [htveq.trans hnone]
    dsimp only []
    rw [hdv]
    dsimp only []
    rw [if_pos htr]
  · rw [htveq.trans hsome]
    dsimp only []
    rw [hidem]
    dsimp only []
    rw [objSet_same (htveq.trans hsome), hdv]
    dsimp only []
    rw [if_pos htr]

theorem update_panels_val_idem {v v' : Json}
    (h : update_panels_val v = .ok v') : update_panels_val v' = .ok v' := by
  rcases update_panels_val_cases h with ⟨xs, ys, rfl, hmap, rfl⟩ | ⟨rfl, hcs⟩
  · rw [update_panels_val,
      mapE_idem (fun x y hxy => update_panel_idem hxy) hmap]
  · rcases hcs with rfl | rfl <;> rfl

theorem dash_fields3_stable (f4 : List (List Char × Json)) (cfg : DashConfig)
    (ht : objGet f4 (S "templating") = some (.obj [(S "list",
      .arr (get_common_variables ++ cfg.specific_variables))]))
    (hl : objGet f4 (S "links") =
      some (.arr (create_links cfg.drill_down_links)))
    (ha : objGet f4 (S "annotations") =
      some (create_annotations cfg.alert_filter)) :
    dash_fields3 f4 cfg = f4 := by
  rw [dash_fields3, objSet_same ht, objSet_same hl, objSet_same ha]

/-- C9: the in-memory enhancement is idempotent: a second run with the
same configuration succeeds and returns the document unchanged. -/
theorem claim_C9 : ∀ (doc : Json) (cfg : DashConfig) (out : Json),
    enhance_dashboard doc cfg = .ok out →
    enhance_dashboard out cfg = .ok out := by
  intro doc cfg out h
  obtain ⟨dfields, dashFields, rfl, hdash, hbr⟩ := enhance_ok_iff.mp h
  rcases hbr with ⟨hpan, rfl⟩ | ⟨pv, pv2, hpan, hupd, rfl⟩
  · -- no panels: the enhanced dashboard is `dash_fields3 dashFields cfg`
    have hstable := dash_fields3_stable (dash_fields3 dashFields cfg) cfg
      (dash_fields3_templating dashFields cfg)
      (dash_fields3_links dashFields cfg)
      (dash_fields3_annotations dashFields cfg)
    apply enhance_ok_iff.mpr
    refine ⟨objSet dfields (S "dashboard") (.obj (dash_fields3 dashFields cfg)),
      dash_fields3 dashFields cfg, rfl, ?_, ?_⟩
    · rw [objGet_objSet_same]
      rfl
    · left
      constructor
      · rw [hstable]
        exact hpan
      · rw [hstable]
        congr 1
        exact (objSet_same (by rw [objGet_objSet_same])).symm
  · -- panels present: the enhanced dashboard also stores the updated panels
    have hget_t : objGet (objSet (dash_fields3 dashFields cfg) (S "panels") pv2)
        (S "templating") = some (.obj [(S "list",
          .arr (get_common_variables ++ cfg.specific_variables))]) := by
      rw [objGet_objSet_ne _ _ (by decide)]
      exact dash_fields3_templating dashFields cfg
    have hget_l : objGet (objSet (dash_fields3 dashFields cfg) (S "panels") pv2)
        (S "links") = some (.arr (create_links cfg.drill_down_links)) := by
      rw [objGet_objSet_ne _ _ (by decide)]
      exact dash_fields3_links dashFields cfg
    have hget_a : objGet (objSet (dash_fields3 dashFields cfg) (S "panels") pv2)
        (S "annotations") = some (create_annotations cfg.alert_filter) := by
      rw [objGet_objSet_ne _ _ (by decide)]
      exact dash_fields3_annotations dashFields cfg
    have hstable := dash_fields3_stable
      (objSet (dash_fields3 dashFields cfg) (S "panels") pv2) cfg
      hget_t hget_l hget_a
    apply enhance_ok_iff.mpr
    refine ⟨objSet dfields (S "dashboard")
      (.obj (objSet (dash_fields3 dashFields cfg) (S "panels") pv2)),
      objSet (dash_fields3 dashFields cfg) (S "panels") pv2, rfl, ?_, ?_⟩
    · rw [objGet_objSet_same]
      rfl
    · right
      refine ⟨pv2, pv2, ?_, ?_, ?_⟩
      · rw [hstable, objGet_objSet_same]
      · exact update_panels_val_idem hupd
      · rw [hstable]
        have hself : objSet (objSet (dash_fields3 dashFields cfg)
            (S "panels") pv2) (S "panels") pv2 =
            objSet (dash_fields3 dashFields cfg) (S "panels") pv2 := by
          apply objSet_same
          rw [objGet_objSet_same]
        rw [hself]
        congr 1
        exact (objSet_same (by rw [objGet_objSet_same])).symm

theorem claim_C9_witness :
    enhance_dashboard
      (exOut (enhance_dashboard sample_panel_doc overview_dashboard_config))
      overview_dashboard_config =
    .ok (exOut (enhance_dashboard sample_panel_doc overview_dashboard_config)) :=
  claim_C9 sample_panel_doc overview_dashboard_config
    (exOut (enhance_dashboard sample_panel_doc overview_dashboard_config)) rfl

/-! ### Concrete sanity checks of the embedding -/

example : update_expr (S "rate(birthday_scheduler_api_requests_total[5m])") =
    S "rate(birthday_scheduler_api_requests_total\x7bnamespace=\"$namespace\", instance=~\"$instance\"\x7d[$interval])" := by
  decide

example : update_expr
    (S "sum(rate(birthday_scheduler_api_requests_total\x7bstatus=\"500\"\x7d[5m]))") =
    S "sum(rate(birthday_scheduler_api_requests_total\x7bnamespace=\"$namespace\", instance=~\"$instance\", status=\"500\"\x7d[$interval]))" := by
  decide

example : update_expr (S "birthday_scheduler_x\x7bnamespace=\"p\"\x7d[5m]") =
    S "birthday_scheduler_x\x7bnamespace=\"p\"\x7d[$interval]" := by
  decide

example : update_expr (S "up[1m]") = S "up[1m]" := by decide

example : panel_desc [(S "id", .num 2), (S "title", .str (S "Latency"))] =
    S "Panel 2: Latency" := by decide

example : panel_desc [] = S "Panel : No title" := by decide
